import Mathlib

/-
Verification development for the client/server product-transfer engine
(akrherz/socket).  The definitions below are shallow embeddings of the C
sources; each definition carries a comment pointing at the C function it
embeds.  Buffers and strings are modelled as lists of byte values
(List Nat); machine integers are modelled as Int (C int, long, time_t)
or Nat (size_t) with explicit conversions where signedness matters.
-/

namespace CS

/-! Constants from share.h -/

/-- share.h: MSG_HDR_LEN -/
def MSG_HDR_LEN : Nat := 10

/-- share.h: PROD_HDR_LEN -/
def PROD_HDR_LEN : Nat := 22

/-- share.h: ACK_MSG_LEN -/
def ACK_MSG_LEN : Nat := 6

/-- share.h: MAX_PROD_SIZE = 99999999 - PROD_HDR_LEN -/
def MAX_PROD_SIZE : Nat := 99999999 - 22

/-- share.h: MAX_PROD_SEQNO -/
def MAX_PROD_SEQNO : Nat := 99999

/-! Decimal formatting, modelling sprintf %.Nd and %.Nld.
decDigitsRevAux is a fuel-based little-endian digit list (fuel >= n
guarantees full computation; we always call it with fuel = n). -/

def decDigitsRevAux : Nat → Nat → List Nat
  | 0, _ => []
  | fuel + 1, n => if n = 0 then [] else (n % 10) :: decDigitsRevAux fuel (n / 10)

/-- Big-endian ASCII decimal digits of n (empty for n = 0). -/
def decDigits (n : Nat) : List Nat :=
  ((decDigitsRevAux n n).reverse).map (fun d => d + 48)

/-- sprintf %.wd for a nonnegative value: zero-pad on the left to width w;
values needing more than w digits print all their digits. -/
def decStr (w n : Nat) : List Nat :=
  List.replicate (w - (decDigits n).length) 48 ++ decDigits n

/-- sprintf %.wd / %.wld for a possibly negative value: a minus sign
followed by the zero-padded magnitude. -/
def intDecStr (w : Nat) (i : Int) : List Nat :=
  if i < 0 then 45 :: decStr w i.natAbs else decStr w i.toNat

/-- The 32 bytes produced by the sprintf in format_msghdr (share.c:85):
"%.8dBI\001\r\r\n%.5d%.10ld\r\r\n" with msg_size = PROD_HDR_LEN + size.
66 = B, 73 = I, 1 = SOH, 13 = CR, 10 = LF. -/
def msghdrBytes (size : Nat) (seqno qtime : Int) : List Nat :=
  decStr 8 (22 + size) ++ [66, 73] ++ [1, 13, 13, 10] ++
    intDecStr 5 seqno ++ intDecStr 10 qtime ++ [13, 13, 10]

/-- share.c:65 format_msghdr.  size is the C size_t field (so the C test
"size <= 0" is size = 0), seqno the C int field, qtime the time_t
queue_time.  The final test models the "strlen(scratchbuf) !=
MSG_HDR_LEN+PROD_HDR_LEN" check (no byte of the header can be NUL, so
strlen is the length).  none models the -1 return, in which case nothing
is copied to the caller's buffer. -/
def format_msghdr (size : Nat) (seqno qtime : Int) : Option (List Nat) :=
  if size = 0 ∨ MAX_PROD_SIZE < size then none
  else if seqno < 0 ∨ (MAX_PROD_SEQNO : Int) < seqno then none
  else if (msghdrBytes size seqno qtime).length = MSG_HDR_LEN + PROD_HDR_LEN then
    some (msghdrBytes size seqno qtime)
  else none

/-! sscanf model for parse_msghdr (share.c:136):
  sscanf(scanbuf, "%8d%2s\001\r\r\n%5d%10ld\r\r\n", ...)
C-locale whitespace is space (32) and 9..13. -/

def isSpaceB (c : Nat) : Bool := c = 32 || (9 ≤ c && c ≤ 13)

def isDigitB (c : Nat) : Bool := 48 ≤ c && c ≤ 57

def skipSpaces : List Nat → List Nat
  | [] => []
  | c :: t => if isSpaceB c then skipSpaces t else c :: t

/-- Read at most w digit characters, accumulating their value. -/
def scanDigitsAux : Nat → Nat → List Nat → Nat × List Nat
  | 0, acc, s => (acc, s)
  | _ + 1, acc, [] => (acc, [])
  | w + 1, acc, c :: t =>
    if isDigitB c then scanDigitsAux w (acc * 10 + (c - 48)) t else (acc, c :: t)

/-- Scan a digit run of at most the given width, negating the value when
neg is set; a matching failure if the width is exhausted or the next
character is not a digit. -/
def scanAfterSign (neg : Bool) : Nat → List Nat → Option (Int × List Nat)
  | _, [] => none
  | 0, _ :: _ => none
  | w' + 1, c :: t =>
    if isDigitB c then
      let r := scanDigitsAux (w' + 1) 0 (c :: t)
      some ((if neg then -(r.1 : Int) else (r.1 : Int)), r.2)
    else none

/-- The body of scanIntW after the leading whitespace has been skipped:
an optional sign (counting toward the field width) then the digits. -/
def scanIntWCore (w : Nat) : List Nat → Option (Int × List Nat)
  | [] => none
  | c :: t =>
    if c = 45 then scanAfterSign true (w - 1) t
    else if c = 43 then scanAfterSign false (w - 1) t
    else if isDigitB c then scanAfterSign false w (c :: t)
    else none

/-- sscanf %wd: skip whitespace, then an optional sign and at least one
digit within a total field width of w characters (the sign counts toward
the width).  Returns the value and the unconsumed input, or none on a
matching failure. -/
def scanIntW (w : Nat) (s : List Nat) : Option (Int × List Nat) :=
  scanIntWCore w (skipSpaces s)

def takeNonSpace : Nat → List Nat → List Nat × List Nat
  | 0, s => ([], s)
  | _ + 1, [] => ([], [])
  | w + 1, c :: t =>
    if isSpaceB c then ([], c :: t)
    else
      let r := takeNonSpace w t
      (c :: r.1, r.2)

/-- The body of scanStrW after the leading whitespace has been
skipped. -/
def scanStrWCore (w : Nat) : List Nat → Option (List Nat × List Nat)
  | [] => none
  | c :: t => some (takeNonSpace w (c :: t))

/-- sscanf %ws: skip whitespace then read at least one and at most w
non-whitespace characters. -/
def scanStrW (w : Nat) (s : List Nat) : Option (List Nat × List Nat) :=
  scanStrWCore w (skipSpaces s)

/-- A literal non-whitespace character in a scanf format must match the
next input character exactly. -/
def matchByte (b : Nat) (s : List Nat) : Option (List Nat) :=
  match s with
  | [] => none
  | c :: t => if c = b then some t else none

/-- share.c:118 parse_msghdr.  The C copies the first 32 bytes of buf into
a NUL-terminated scan buffer (modelled by take/takeWhile) and sscanfs;
all four conversions must succeed.  Returns (size, seqno, queue_time)
with size = msg_size - PROD_HDR_LEN computed in signed int arithmetic
(the caller stores it into the size_t field, see toSizeT below).
Note the C never compares the two scanned mnemonic characters to "BI". -/
def parse_msghdr (buf : List Nat) (buflen : Nat) : Option (Int × Int × Int) :=
  if buflen < MSG_HDR_LEN + PROD_HDR_LEN then none
  else
    (scanIntW 8 ((buf.take 32).takeWhile (fun c => c != 0))).bind fun r1 =>
    (scanStrW 2 r1.2).bind fun r2 =>
    (matchByte 1 r2.2).bind fun s3 =>
    (scanIntW 5 (skipSpaces s3)).bind fun r4 =>
    (scanIntW 10 r4.2).bind fun r5 =>
    some (r1.1 - 22, r4.1, r5.1)

/-- Conversion of the signed int value msg_size - PROD_HDR_LEN to the
size_t field p_prod->size (64-bit size_t). -/
def toSizeT (i : Int) : Nat := (i % (2 ^ 64 : Int)).toNat

/-- serv_recv.c:158 recv_msghdr, after the 32 header bytes have been read
from the socket (recv_block is the transport and is abstracted by the
given buffer).  expected is the seqno argument (the next expected product
sequence number).  none models the -1 return.  The size test is the C
"p_prod->size <= 0 || p_prod->size > MAX_PROD_SIZE" on the unsigned
size_t field. -/
def recv_msghdr (buf : List Nat) (expected : Int) : Option (Int × Int × Int) :=
  match parse_msghdr buf 32 with
  | none => none
  | some (szS, seq, qt) =>
    if seq ≠ expected ∧ seq ≠ 0 then none
    else if toSizeT szS = 0 ∨ MAX_PROD_SIZE < toSizeT szS then none
    else some (szS, seq, qt)

/-! Product table, lists and the poll_and_send loop (client_send.c).
Slots of the window_size pool are modelled by their indices 0..w-1; the
intrusive singly-linked lists (p_head / p_tail / p_next) are modelled by
the list of slot indices in link order together with the separately
maintained count field (int), exactly as in the C struct prod_list_t:
p_head is items.head?, p_tail is items.getLast?. -/

/-- share.h state codes for prod_info_t.state -/
def STATE_FREE : Char := ' '

def STATE_QUEUED : Char := 'Q'

def STATE_SENT : Char := 'S'

def STATE_ACKED : Char := 'A'

def STATE_NACKED : Char := 'N'

def STATE_RETRY : Char := 'R'

def STATE_FAILED : Char := 'F'

def STATE_DEAD : Char := 'X'

/-- client.h prod_list_t -/
structure ProdList where
  items : List Nat
  count : Int
deriving DecidableEq

/-- client_send.c:1040 push_prod: append at the tail, increment count. -/
def push_prod (l : ProdList) (p : Nat) : ProdList :=
  { items := l.items ++ [p], count := l.count + 1 }

/-- client_send.c:1069 pop_prod: if p_head is NULL return NULL leaving the
list untouched; otherwise unlink the head, decrement count (the tail is
nulled implicitly when the remainder is empty). -/
def pop_prod (l : ProdList) : Option Nat × ProdList :=
  match l.items with
  | [] => (none, l)
  | p :: t => (some p, { items := t, count := l.count - 1 })

/-- client.h prod_tbl_t; prod[i].state is states[i]. -/
structure ProdTbl where
  states : List Char
  free_list : ProdList
  ack_list : ProdList
  retr_list : ProdList
deriving DecidableEq

/-- All slot indices currently on one of the three lists. -/
def listItems (t : ProdTbl) : List Nat :=
  t.free_list.items ++ t.ack_list.items ++ t.retr_list.items

/-- The switch cases of the rebuild loop: QUEUED/RETRY go to the retry
list. -/
def sendsRetry (sts : List Char) (i : Nat) : Bool :=
  sts.getD i STATE_FREE = STATE_QUEUED || sts.getD i STATE_FREE = STATE_RETRY

/-- The switch case of the rebuild loop: SENT goes to the ack list. -/
def sendsAck (sts : List Char) (i : Nat) : Bool :=
  sts.getD i STATE_FREE = STATE_SENT

/-- One iteration of the rebuild loop (client_send.c:1120): dispatch slot
i by its state: QUEUED/RETRY to retr_list, SENT to ack_list, everything
else (ACKED, NACKED, FAILED, DEAD, FREE, default) to free_list. -/
def rebuildPush (t : ProdTbl) (i : Nat) : ProdTbl :=
  if sendsRetry t.states i then { t with retr_list := push_prod t.retr_list i }
  else if sendsAck t.states i then { t with ack_list := push_prod t.ack_list i }
  else { t with free_list := push_prod t.free_list i }

/-- client_send.c:1103 rebuild_lists: reset all heads, tails and counts,
then push every slot 0..window_size-1 in index order onto the list chosen
by its state. -/
def rebuild_lists (w : Nat) (t : ProdTbl) : ProdTbl :=
  (List.range w).foldl rebuildPush
    { t with free_list := ⟨[], 0⟩, ack_list := ⟨[], 0⟩, retr_list := ⟨[], 0⟩ }

/-- The state of poll_and_send (client_send.c:115) that the claims are
about: the product table, the in-hand product p_prod (curr), the
connection-message slot p_connect (conn), whether sock_fd >= 0
(connected), the DISCONNECT_FLAG bit (disc), and the current value of
the local loop variable i (staleI), which the ack-processing code uses
as an index into prod_tbl.prod. -/
structure LoopState where
  tbl : ProdTbl
  curr : Option Nat
  conn : Option Nat
  connected : Bool
  disc : Bool
  staleI : Nat
deriving DecidableEq

/-- State after the initialization at client_send.c:136-152: all
window_size slots set to STATE_FREE and pushed onto the free list in
index order; the init loop leaves i = window_size. -/
def initState (w : Nat) : LoopState :=
  { tbl := { states := List.replicate w STATE_FREE,
             free_list := ⟨List.range w, (w : Int)⟩,
             ack_list := ⟨[], 0⟩, retr_list := ⟨[], 0⟩ },
    curr := none, conn := none, connected := false, disc := false, staleI := w }

/-- client_send.c:1266 create_conn_msg: pop a slot from the free list (on
underflow rebuild and return NULL); memset clears the slot (state becomes
the NUL character); if mkstemp/fdopen fails (fileOk = false) the slot is
pushed back onto the free list and NULL is returned.  The caller assigns
the result to both p_prod and p_connect. -/
def createConnMsg (fileOk : Bool) (w : Nat) (s : LoopState) : LoopState :=
  match s.tbl.free_list.items with
  | [] => { s with tbl := rebuild_lists w s.tbl, curr := none, conn := none }
  | c :: t =>
    let popped : ProdList := ⟨t, s.tbl.free_list.count - 1⟩
    let st' := s.tbl.states.set c (Char.ofNat 0)
    if fileOk then
      { s with tbl := { s.tbl with free_list := popped, states := st' },
               curr := some c, conn := some c }
    else
      { s with tbl := { s.tbl with free_list := push_prod popped c, states := st' },
               curr := none, conn := none }

/-- client_send.c:165-167 without a configured connection WMO: tear down
the socket; disconnect_from_server clears DISCONNECT_FLAG; p_prod is
kept. -/
def discNoWmoF (s : LoopState) : LoopState :=
  { s with connected := false, disc := false }

/-- client_send.c:165-176 with a connection WMO: tear down, push the
current product onto the retry list unless it is the connection message,
then create a fresh connection message which becomes the current
product. -/
def discWmoF (fileOk : Bool) (w : Nat) (s : LoopState) : LoopState :=
  let s0 := { s with connected := false, disc := false }
  let s1 :=
    match s0.curr with
    | some p =>
      if s0.conn = some p then s0
      else { s0 with tbl := { s0.tbl with retr_list := push_prod s0.tbl.retr_list p } }
    | none => s0
  createConnMsg fileOk w s1

/-- The requeue loop at client_send.c:198-223 run after a successful
connect: for (i = 0; ack_list.count > 0; i++) pop the ack list; the
connection message is dropped (continue) and every other slot is pushed
onto the retry list.  Returns the new retry list and the final value of
i. -/
def drainAckAux (conn : Option Nat) : List Nat → ProdList → Nat → ProdList × Nat
  | [], retr, i => (retr, i)
  | c :: t, retr, i =>
    if conn = some c then drainAckAux conn t retr (i + 1)
    else drainAckAux conn t (push_prod retr c) (i + 1)

/-- client_send.c:180-226, successful connect: requeue all pending-ack
products (ProdSeqno is reset, not modelled); each pop decrements the ack
count.  The loop variable i is left at the number of iterations. -/
def connectOkF (s : LoopState) : LoopState :=
  let r := drainAckAux s.conn s.tbl.ack_list.items s.tbl.retr_list 0
  { s with
    tbl := { s.tbl with
             ack_list := ⟨[], s.tbl.ack_list.count - (s.tbl.ack_list.items.length : Int)⟩,
             retr_list := r.1 },
    connected := true, staleI := r.2 }

/-- client_send.c:231-239: acquisition from the retry list (guarded by
curr = none, ack count < window, retr count > 0).  A pop failure (only
possible when the count disagrees with the links) triggers
rebuild_lists and p_prod stays NULL. -/
def acquireRetryF (w : Nat) (s : LoopState) : LoopState :=
  match s.tbl.retr_list.items with
  | [] => { s with tbl := rebuild_lists w s.tbl, curr := none }
  | p :: t =>
    { s with tbl := { s.tbl with retr_list := ⟨t, s.tbl.retr_list.count - 1⟩ },
             curr := some p }

/-- client_send.c:241-264: acquisition from the input queue: pop a free
slot (on underflow rebuild and continue with p_prod NULL), then call
get_next_file whose return q is environment-determined: q < 0 is an input
error (the slot stays in hand, unchanged); q > 0 loads a product and sets
its state to QUEUED; q = 0 means an empty queue and the slot is pushed
back onto the free list. -/
def acquireNewF (w : Nat) (q : Int) (s : LoopState) : LoopState :=
  match s.tbl.free_list.items with
  | [] => { s with tbl := rebuild_lists w s.tbl, curr := none }
  | p :: t =>
    let popped : ProdList := ⟨t, s.tbl.free_list.count - 1⟩
    if q < 0 then
      { s with tbl := { s.tbl with free_list := popped }, curr := some p }
    else if 0 < q then
      { s with
        tbl := { s.tbl with
                 free_list := popped
                 states := s.tbl.states.set p STATE_QUEUED }
        curr := some p }
    else
      { s with tbl := { s.tbl with free_list := push_prod popped p }, curr := none }

/-- client_send.c:281-296 TTL discard (fires when queue_ttl > 0 and the
product is too old, both environment-determined): state := DEAD, the file
is dispositioned by abort_send, the slot is pushed onto the free list. -/
def ttlF (s : LoopState) : LoopState :=
  match s.curr with
  | none => s
  | some p =>
    { s with
      tbl := { s.tbl with
               states := s.tbl.states.set p STATE_DEAD
               free_list := push_prod s.tbl.free_list p }
      curr := none }

/-- client_send.c:299-317 successful send: send_prod set the state to
SENT; the product moves to the ack list. -/
def sendOkF (s : LoopState) : LoopState :=
  match s.curr with
  | none => s
  | some p =>
    { s with
      tbl := { s.tbl with
               states := s.tbl.states.set p STATE_SENT
               ack_list := push_prod s.tbl.ack_list p }
      curr := none }

/-- client_send.c:318-323 send failure with state FAILED (open/read
failure or retry budget exhausted): abort_send dispositions the file and
the slot is pushed onto the free list. -/
def sendFailF (s : LoopState) : LoopState :=
  match s.curr with
  | none => s
  | some p =>
    { s with
      tbl := { s.tbl with
               states := s.tbl.states.set p STATE_FAILED
               free_list := push_prod s.tbl.free_list p }
      curr := none }

/-- client_send.c:324 send failure without FAILED (partial send, state set
to RETRY at client_send.c:810): the product stays in hand and is retried
on the next loop iteration. -/
def sendRetryF (s : LoopState) : LoopState :=
  match s.curr with
  | none => s
  | some p =>
    { s with tbl := { s.tbl with states := s.tbl.states.set p STATE_RETRY } }

/-- Outcome of one pass of the ack-processing loop body for the popped
head product: recv_ack error, code K, code F, code R, or an invalid
code. -/
inductive AckOutcome where
  | recvErr
  | okK
  | okF
  | okR
  | badCode
deriving DecidableEq

/-- client_send.c:334-413, one iteration of the ack-processing loop with
the ack list non-empty: pop the head p_ack, then per outcome:
recv error: push p_ack back (at the tail) and set DISCONNECT_FLAG;
K: p_ack.state := ACKED, finish_send, then prod[i].state := FREE using
the stale outer loop index i (NOT the acked slot; with i = window_size
after startup this write is out of bounds, modelled as a no-op of
List.set), and p_ack is pushed onto the free list;
F: likewise with NACKED and abort_send;
R: for the connection message prod[i].state := FREE and the slot is
freed without retry; otherwise p_ack.state := RETRY and p_ack goes to
the retry list;
invalid code: push p_ack back and set DISCONNECT_FLAG.
After the switch (K/F/R/invalid), p_connect is nulled if p_ack was the
connection message. -/
def ackStepF (o : AckOutcome) (s : LoopState) : LoopState :=
  match s.tbl.ack_list.items with
  | [] => s
  | a :: rest =>
    let ackPopped : ProdList := ⟨rest, s.tbl.ack_list.count - 1⟩
    match o with
    | .recvErr =>
      { s with tbl := { s.tbl with ack_list := push_prod ackPopped a }, disc := true }
    | .okK =>
      { s with tbl := { s.tbl with
                        states := (s.tbl.states.set a STATE_ACKED).set s.staleI STATE_FREE,
                        ack_list := ackPopped,
                        free_list := push_prod s.tbl.free_list a },
               conn := if s.conn = some a then none else s.conn }
    | .okF =>
      { s with tbl := { s.tbl with
                        states := (s.tbl.states.set a STATE_NACKED).set s.staleI STATE_FREE,
                        ack_list := ackPopped,
                        free_list := push_prod s.tbl.free_list a },
               conn := if s.conn = some a then none else s.conn }
    | .okR =>
      if s.conn = some a then
        { s with tbl := { s.tbl with
                          states := s.tbl.states.set s.staleI STATE_FREE,
                          ack_list := ackPopped,
                          free_list := push_prod s.tbl.free_list a },
                 conn := none }
      else
        { s with tbl := { s.tbl with
                          states := s.tbl.states.set a STATE_RETRY,
                          ack_list := ackPopped,
                          retr_list := push_prod s.tbl.retr_list a } }
    | .badCode =>
      { s with tbl := { s.tbl with ack_list := push_prod ackPopped a }, disc := true }

/-- Event labels for the loop transitions. -/
inductive Ev where
  | discNoWmo
  | discWmo (fileOk : Bool)
  | connCreatePre (fileOk : Bool)
  | connectOk
  | signalDisc
  | acquireRetry
  | acquireNew (q : Int)
  | acquireSkipFull
  | acquireOverflow
  | ttlDiscard
  | sendOk
  | sendFail
  | sendRetry
  | ack (o : AckOutcome)
  | ackUnderflow
deriving DecidableEq

/-- The acquisition events: taking a product from the retry list or from
the input queue (claim C3 is about exactly these). -/
def isAcquireEv : Ev → Bool
  | .acquireRetry => true
  | .acquireNew _ => true
  | _ => false

/-- One iteration step of poll_and_send, decomposed into the events that
touch the product table, with the guards under which the corresponding
code region executes.  Events driven by the environment (timeouts, socket
and filesystem results, ack codes, signals) are nondeterministic
parameters, so the relation over-approximates the code's behaviours. -/
inductive Step (w : Nat) (connWmo : Bool) : LoopState → Ev → LoopState → Prop where
  | discNoWmo (s : LoopState) (h1 : s.connected = true) (h2 : s.disc = true)
      (h3 : connWmo = false) :
      Step w connWmo s .discNoWmo (discNoWmoF s)
  | discWmo (s : LoopState) (fileOk : Bool) (h1 : s.connected = true)
      (h2 : s.disc = true) (h3 : connWmo = true) :
      Step w connWmo s (.discWmo fileOk) (discWmoF fileOk w s)
  | connCreatePre (s : LoopState) (fileOk : Bool) (h : connWmo = true) :
      Step w connWmo s (.connCreatePre fileOk) (createConnMsg fileOk w s)
  | connectOk (s : LoopState) (h : s.connected = false) :
      Step w connWmo s .connectOk (connectOkF s)
  | signalDisc (s : LoopState) :
      Step w connWmo s .signalDisc { s with disc := true }
  | acquireRetry (s : LoopState) (h0 : s.curr = none)
      (h1 : s.tbl.ack_list.count < (w : Int)) (h2 : 0 < s.tbl.retr_list.count) :
      Step w connWmo s .acquireRetry (acquireRetryF w s)
  | acquireNew (s : LoopState) (q : Int) (h0 : s.curr = none)
      (h1 : s.tbl.ack_list.count < (w : Int)) (h2 : ¬0 < s.tbl.retr_list.count) :
      Step w connWmo s (.acquireNew q) (acquireNewF w q s)
  | acquireSkipFull (s : LoopState) (h0 : s.curr = none)
      (h1 : s.tbl.ack_list.count = (w : Int)) :
      Step w connWmo s .acquireSkipFull s
  | acquireOverflow (s : LoopState) (h0 : s.curr = none)
      (h1 : (w : Int) < s.tbl.ack_list.count) :
      Step w connWmo s .acquireOverflow { s with tbl := rebuild_lists w s.tbl }
  | ttlDiscard (s : LoopState) (h : s.curr ≠ none) :
      Step w connWmo s .ttlDiscard (ttlF s)
  | sendOk (s : LoopState) (h1 : s.connected = true) (h2 : s.curr ≠ none) :
      Step w connWmo s .sendOk (sendOkF s)
  | sendFail (s : LoopState) (h1 : s.connected = true) (h2 : s.curr ≠ none) :
      Step w connWmo s .sendFail (sendFailF s)
  | sendRetry (s : LoopState) (h1 : s.connected = true) (h2 : s.curr ≠ none) :
      Step w connWmo s .sendRetry (sendRetryF s)
  | ack (s : LoopState) (o : AckOutcome) (h1 : s.connected = true)
      (h2 : s.tbl.ack_list.items ≠ []) :
      Step w connWmo s (.ack o) (ackStepF o s)
  | ackUnderflow (s : LoopState) (h1 : s.connected = true)
      (h2 : s.tbl.ack_list.items = []) (h3 : 0 < s.tbl.ack_list.count) :
      Step w connWmo s .ackUnderflow { s with tbl := rebuild_lists w s.tbl }

/-- States reachable by the send loop from the freshly initialized
product table. -/
inductive Reachable (w : Nat) (connWmo : Bool) : LoopState → Prop where
  | init : Reachable w connWmo (initState w)
  | step {s s' : LoopState} {e : Ev} :
      Reachable w connWmo s → Step w connWmo s e s' → Reachable w connWmo s'

/-- The list-discipline invariant that actually holds (claim C4 amended):
no slot is on two lists (or twice on one), all listed slots are pool
indices, each count field equals its list's length, and the in-hand
product is on no list. -/
structure Inv0 (w : Nat) (s : LoopState) : Prop where
  nodup : (listItems s.tbl).Nodup
  bounded : ∀ i ∈ listItems s.tbl, i < w
  cf : s.tbl.free_list.count = (s.tbl.free_list.items.length : Int)
  ca : s.tbl.ack_list.count = (s.tbl.ack_list.items.length : Int)
  cr : s.tbl.retr_list.count = (s.tbl.retr_list.items.length : Int)
  statesLen : s.tbl.states.length = w

structure Inv (w : Nat) (s : LoopState) extends Inv0 w s : Prop where
  currFresh : ∀ p, s.curr = some p → p ∉ listItems s.tbl ∧ p < w

/-- The decidable part of the amended list discipline, stated for a
single state. -/
def Discipline (w : Nat) (s : LoopState) : Prop :=
  (listItems s.tbl).Nodup ∧
  (∀ i ∈ listItems s.tbl, i < w) ∧
  s.tbl.free_list.count = (s.tbl.free_list.items.length : Int) ∧
  s.tbl.ack_list.count = (s.tbl.ack_list.items.length : Int) ∧
  s.tbl.retr_list.count = (s.tbl.retr_list.items.length : Int) ∧
  s.tbl.free_list.count + s.tbl.ack_list.count + s.tbl.retr_list.count ≤ (w : Int)

/-- Claim C4 as frozen: every slot on exactly one list, counts equal to
lengths, counts summing to window_size. -/
def ClaimC4Inv (w : Nat) (s : LoopState) : Prop :=
  (∀ i, i < w → (listItems s.tbl).count i = 1) ∧
  s.tbl.free_list.count = (s.tbl.free_list.items.length : Int) ∧
  s.tbl.ack_list.count = (s.tbl.ack_list.items.length : Int) ∧
  s.tbl.retr_list.count = (s.tbl.retr_list.items.length : Int) ∧
  s.tbl.free_list.count + s.tbl.ack_list.count + s.tbl.retr_list.count = (w : Int)

/-- What rebuild_lists produces: the three lists are exactly the pool
indices filtered by state (in index order), the counts match, and the
result is a full partition of the pool. -/
def RebuildSpec (w : Nat) (t : ProdTbl) : Prop :=
  (rebuild_lists w t).retr_list.items =
    (List.range w).filter (fun i => sendsRetry t.states i) ∧
  (rebuild_lists w t).ack_list.items =
    (List.range w).filter (fun i => sendsAck t.states i) ∧
  (rebuild_lists w t).free_list.items =
    (List.range w).filter (fun i => !sendsRetry t.states i && !sendsAck t.states i) ∧
  (rebuild_lists w t).free_list.count = ((rebuild_lists w t).free_list.items.length : Int) ∧
  (rebuild_lists w t).ack_list.count = ((rebuild_lists w t).ack_list.items.length : Int) ∧
  (rebuild_lists w t).retr_list.count = ((rebuild_lists w t).retr_list.items.length : Int) ∧
  (rebuild_lists w t).free_list.count + (rebuild_lists w t).ack_list.count +
    (rebuild_lists w t).retr_list.count = (w : Int) ∧
  (∀ i, i < w → (listItems (rebuild_lists w t)).count i = 1)

/-- A reachable state used by claims C4 and C5: connect with an empty ack
list (this leaves the loop variable i at 0), then acquire slot 0 from the
queue. -/
def exState : LoopState := acquireNewF 2 1 (connectOkF (initState 2))

/-- A reachable state exhibiting the stale-index ack bug (claim C5):
after the empty reconnect (i = 0), slots 0 and 1 are queued and sent,
then a retry ack for slot 0 puts it on the retry list in state RETRY
while slot 1 still awaits its ack. -/
def c5state : LoopState :=
  ackStepF .okR (sendOkF (acquireNewF 2 1 (sendOkF exState)))

/-! Input queue poller (client_queue.c).  Filenames are byte lists;
directory contents and stat results are environment parameters. -/

/-- The fields of a queue entry that get_next_file records
(client_queue.c:229-232) and that compare_items inspects. -/
structure QEntry where
  filename : List Nat
  queue_time : Int
  qsize : Nat
  priority : Int
deriving DecidableEq

/-- client_queue.c:321 compare_items: priority descending, then
queue_time (st_mtime) ascending, 0 on a tie. -/
def compare_items (p1 p2 : QEntry) : Int :=
  if p1.priority < p2.priority then 1
  else if p2.priority < p1.priority then -1
  else if p2.queue_time < p1.queue_time then 1
  else if p1.queue_time < p2.queue_time then -1
  else 0

/-- A list sorted according to compare_items. -/
def sortedByCmp (l : List QEntry) : Prop :=
  l.Pairwise (fun a b => compare_items a b ≤ 0)

/-- The contract of the libc qsort call at client_queue.c:265: the output
is some permutation of the input that is sorted by the comparator.  qsort
gives no stability guarantee, so any such permutation is a possible
snapshot. -/
def qsortRel (l l' : List QEntry) : Prop :=
  l'.Perm l ∧ sortedByCmp l'

/-- A directory entry as seen by the poller: its name, whether stat
succeeded, and the stat results used by the filters. -/
structure FsEntry where
  ename : List Nat
  statOk : Bool
  mode : Nat
  fsize : Nat
  mtime : Int
deriving DecidableEq

/-- An input directory: its path, whether opendir succeeded, and its
entries in readdir order. -/
structure FsDir where
  dpath : List Nat
  openOk : Bool
  entries : List FsEntry
deriving DecidableEq

/-- The continue-chain of filters at client_queue.c:175-218, in code
order: skip names starting with 46 ('.'); skip stat failures; skip
entries with no S_IFREG/S_IFLNK bit (the C mask S_IFREG|S_IFLNK is
0o120000); skip entries with no read permission bit (PERM_MASK
0o444); skip zero-length files modified within the last 3 seconds;
skip files already in the ack or retry window (inflight holds those
filenames; pathbuf is dir/name with 47 = '/'). -/
def entrySkip (now : Int) (inflight : List (List Nat)) (dp : List Nat)
    (e : FsEntry) : Bool :=
  if e.ename.head? = some 46 then true
  else if e.statOk = false then true
  else if e.mode &&& 0o120000 = 0 then true
  else if e.mode &&& 0o444 = 0 then true
  else if e.fsize = 0 && decide (now - 3 < e.mtime) then true
  else if (dp ++ 47 :: e.ename) ∈ inflight then true
  else false

/-- The readdir loop for one directory (client_queue.c:173-253): each
accepted entry is appended to the queue; when max_queue_len is positive
and the queue has reached it, break out of this directory's loop (the
outer loop over directories continues). -/
def pollDirAux (maxq now : Int) (inflight : List (List Nat)) (dp : List Nat)
    (priority : Int) : List FsEntry → List QEntry → List QEntry
  | [], acc => acc
  | e :: rest, acc =>
    if entrySkip now inflight dp e then pollDirAux maxq now inflight dp priority rest acc
    else if 0 < maxq ∧
        maxq ≤ ((acc ++ [(⟨dp ++ 47 :: e.ename, e.mtime, e.fsize, priority⟩ : QEntry)]).length : Int) then
      acc ++ [(⟨dp ++ 47 :: e.ename, e.mtime, e.fsize, priority⟩ : QEntry)]
    else
      pollDirAux maxq now inflight dp priority rest
        (acc ++ [(⟨dp ++ 47 :: e.ename, e.mtime, e.fsize, priority⟩ : QEntry)])

/-- The loop over the prioritized directory list
(client_queue.c:158-261): the first directory gets priority D-1, each
later one one less; a failed opendir skips the directory. -/
def pollDirsAux (maxq now : Int) (inflight : List (List Nat)) :
    List FsDir → Int → List QEntry → List QEntry
  | [], _, acc => acc
  | d :: rest, priority, acc =>
    pollDirsAux maxq now inflight rest (priority - 1)
      (if d.openOk then pollDirAux maxq now inflight d.dpath priority d.entries acc
       else acc)

/-- One refresh of the queue (client_queue.c:135-269 before the qsort):
the unsorted entry list collected from all directories. -/
def pollDirs (maxq now : Int) (inflight : List (List Nat)) (dirs : List FsDir) :
    List QEntry :=
  pollDirsAux maxq now inflight dirs ((dirs.length : Int) - 1) []

/-- The uncapped collection: every eligible entry of every opened
directory, with the same priorities (what a refresh yields when
max_queue_len is not positive). -/
def allEligibleAux (now : Int) (inflight : List (List Nat)) :
    List FsDir → Int → List QEntry → List QEntry
  | [], _, acc => acc
  | d :: rest, priority, acc =>
    allEligibleAux now inflight rest (priority - 1)
      (if d.openOk then
        acc ++ (d.entries.filter (fun e => !entrySkip now inflight d.dpath e)).map
          (fun e => ⟨d.dpath ++ 47 :: e.ename, e.mtime, e.fsize, priority⟩)
       else acc)

def allEligible (now : Int) (inflight : List (List Nat)) (dirs : List FsDir) :
    List QEntry :=
  allEligibleAux now inflight dirs ((dirs.length : Int) - 1) []

/-! my_rename (share.c:340).  The environment supplies the outcome of the
k-th rename syscall, of my_copy, and of my_mkdir, plus whether the target
path has a directory component (strrchr(target,'/') not NULL and not at
position 0). -/

def EXDEV : Nat := 18

def ENOENT : Nat := 2

inductive RenameRes where
  | ok
  | fail (errno : Nat)
deriving DecidableEq

structure RenameEnv where
  renameRes : Nat → RenameRes
  copyOk : Bool
  mkdirOk : Nat → Bool
  targetHasDirSlash : Bool

/-- The retry loop of my_rename (share.c:346-391), with fuel counting the
remaining loop iterations the model is willing to unfold (none would mean
the loop ran longer than the fuel; fuel 2 always suffices, see the C10
theorem).  last is last_errno, k the index of the next rename call.
On success: 0.  Failing with the same errno as the previous failure: -1.
EXDEV: my_copy then unlink; 0 if the copy succeeded (a failed unlink is
non-fatal), else -1.  ENOENT: when the target has a directory component,
my_mkdir it and retry (or -1 if mkdir fails); otherwise just retry.
Any other errno: -1. -/
def my_rename_loop (env : RenameEnv) : Nat → Nat → Nat → Option Int
  | 0, _, _ => none
  | fuel + 1, last, k =>
    match env.renameRes k with
    | .ok => some 0
    | .fail e =>
      if e = last then some (-1)
      else if e = EXDEV then
        if env.copyOk then some 0 else some (-1)
      else if e = ENOENT then
        if env.targetHasDirSlash then
          if env.mkdirOk k then my_rename_loop env fuel e (k + 1) else some (-1)
        else my_rename_loop env fuel e (k + 1)
      else some (-1)

/-- share.c:340 my_rename: the loop entered with last_errno = 0; two
iterations of fuel always suffice. -/
def my_rename (env : RenameEnv) : Option Int := my_rename_loop env 2 0 0

/-- A concrete environment in which every rename call fails with ENOENT
and mkdir succeeds: the second consecutive ENOENT gives up with -1. -/
def envW : RenameEnv := ⟨fun _ => .fail 2, true, fun _ => true, true⟩

/-- Two queue entries tied on priority and queue_time but naming
different files. -/
def qeA : QEntry := ⟨[97], 0, 3, 0⟩

def qeB : QEntry := ⟨[98], 0, 4, 0⟩

/-- Two input directories with one eligible regular file each (mode
0o100644, nonzero size). -/
def fsDirA : FsDir := ⟨[97], true, [⟨[102], true, 0o100644, 5, 0⟩]⟩

def fsDirB : FsDir := ⟨[98], true, [⟨[103], true, 0o100644, 7, 1⟩]⟩

/-! Helper lemmas: decimal printing -/

theorem decDigitsRevAux_eq (fuel : Nat) :
    ∀ n : Nat, n ≤ fuel → decDigitsRevAux fuel n = Nat.digits 10 n := by
  induction fuel with
  | zero =>
    intro n hn
    have h0 : n = 0 := by omega
    subst h0
    simp [decDigitsRevAux]
  | succ f ih =>
    intro n hn
    rcases Nat.eq_zero_or_pos n with h0 | hpos
    · subst h0; simp [decDigitsRevAux]
    · have hlt : n / 10 < n := Nat.div_lt_self hpos (by norm_num)
      rw [decDigitsRevAux, if_neg (by omega : ¬n = 0),
        ih (n / 10) (by omega), Nat.digits_def' (b := 10) (by norm_num) hpos]

theorem decDigits_eq (n : Nat) :
    decDigits n = ((Nat.digits 10 n).reverse).map (fun d => d + 48) := by
  rw [decDigits, decDigitsRevAux_eq n n le_rfl]

theorem decDigits_length (n : Nat) :
    (decDigits n).length = (Nat.digits 10 n).length := by
  simp [decDigits_eq]

theorem digits_length_le_iff (n w : Nat) :
    (Nat.digits 10 n).length ≤ w ↔ n < 10 ^ w := by
  constructor
  · intro h
    calc n < 10 ^ (Nat.digits 10 n).length :=
          Nat.lt_base_pow_length_digits (by norm_num)
      _ ≤ 10 ^ w := Nat.pow_le_pow_right (by norm_num) h
  · intro h
    rcases Nat.eq_zero_or_pos n with h0 | hpos
    · subst h0; simp
    · rw [Nat.digits_len 10 n (by norm_num) (by omega)]
      have := (Nat.lt_pow_iff_log_lt (b := 10) (by norm_num) (by omega)).mp h
      omega

theorem decStr_length (w n : Nat) :
    (decStr w n).length = max w (decDigits n).length := by
  simp [decStr]
  omega

theorem decStr_length_eq (w n : Nat) (h : n < 10 ^ w) :
    (decStr w n).length = w := by
  have := (digits_length_le_iff n w).mpr h
  rw [decStr_length, decDigits_length]
  omega

theorem decStr_digits (w n : Nat) : ∀ c ∈ decStr w n, isDigitB c = true := by
  intro c hc
  rcases List.mem_append.mp hc with h | h
  · have := List.eq_of_mem_replicate h
    subst this
    rfl
  · rw [decDigits_eq] at h
    obtain ⟨d, hd, rfl⟩ := List.mem_map.mp h
    have hd' : d ∈ Nat.digits 10 n := List.mem_reverse.mp hd
    have := Nat.digits_lt_base (by norm_num) hd'
    simp [isDigitB]
    omega

theorem digit_not_space {c : Nat} (h : isDigitB c = true) : isSpaceB c = false := by
  simp [isDigitB] at h
  simp [isSpaceB]
  omega

theorem foldl_digits_val (ds : List Nat) :
    ∀ acc : Nat,
      List.foldl (fun a c => a * 10 + (c - 48)) acc ((ds.reverse).map (fun d => d + 48)) =
        acc * 10 ^ ds.length + Nat.ofDigits 10 ds := by
  induction ds with
  | nil => intro acc; simp [Nat.ofDigits]
  | cons d t ih =>
    intro acc
    rw [List.reverse_cons, List.map_append, List.foldl_append, ih]
    have h48 : d + 48 - 48 = d := by omega
    simp only [List.map_cons, List.map_nil, List.foldl_cons, List.foldl_nil,
      Nat.ofDigits_cons, List.length_cons, h48]
    ring

theorem foldl_replicate_48 (k : Nat) :
    ∀ acc : Nat,
      List.foldl (fun a c => a * 10 + (c - 48)) acc (List.replicate k 48) =
        acc * 10 ^ k := by
  induction k with
  | zero => intro acc; simp
  | succ m ih =>
    intro acc
    rw [List.replicate_succ, List.foldl_cons]
    have h48 : acc * 10 + (48 - 48) = acc * 10 := by omega
    rw [h48, ih]
    ring

theorem decStr_val (w n : Nat) :
    List.foldl (fun a c => a * 10 + (c - 48)) 0 (decStr w n) = n := by
  rw [decStr, List.foldl_append, foldl_replicate_48]
  simp only [Nat.zero_mul]
  rw [decDigits_eq, foldl_digits_val, Nat.ofDigits_digits]
  simp

/-! Helper lemmas: scanning -/

theorem scanDigitsAux_exact (l : List Nat) (hd : ∀ c ∈ l, isDigitB c = true) :
    ∀ (acc : Nat) (rest : List Nat),
      scanDigitsAux l.length acc (l ++ rest) =
        (List.foldl (fun a c => a * 10 + (c - 48)) acc l, rest) := by
  induction l with
  | nil => intro acc rest; simp [scanDigitsAux]
  | cons c t ih =>
    intro acc rest
    have hc := hd c (List.mem_cons_self c t)
    simp only [List.length_cons, List.cons_append, scanDigitsAux, hc, if_true,
      List.foldl_cons]
    exact ih (fun x hx => hd x (List.mem_cons_of_mem c hx)) _ rest

theorem scanDigitsAux_lt (w : Nat) :
    ∀ (acc : Nat) (s : List Nat), (scanDigitsAux w acc s).1 < (acc + 1) * 10 ^ w := by
  induction w with
  | zero =>
    intro acc s
    simp [scanDigitsAux]
  | succ m ih =>
    intro acc s
    have hpow : 0 < 10 ^ (m + 1) := Nat.pos_pow_of_pos _ (by norm_num)
    match s with
    | [] =>
      simp only [scanDigitsAux]
      have := Nat.le_mul_of_pos_right (acc + 1) hpow
      omega
    | c :: t =>
      simp only [scanDigitsAux]
      by_cases hc : isDigitB c = true
      · rw [if_pos hc]
        have h57 : c ≤ 57 := by simp [isDigitB] at hc; omega
        have h1 := ih (acc * 10 + (c - 48)) t
        have h2 : (acc * 10 + (c - 48) + 1) * 10 ^ m ≤ ((acc + 1) * 10) * 10 ^ m :=
          Nat.mul_le_mul_right _ (by omega)
        have h3 : ((acc + 1) * 10) * 10 ^ m = (acc + 1) * 10 ^ (m + 1) := by ring
        omega
      · rw [if_neg hc]
        have := Nat.le_mul_of_pos_right (acc + 1) hpow
        omega

theorem skipSpaces_idem (s : List Nat) : skipSpaces (skipSpaces s) = skipSpaces s := by
  induction s with
  | nil => rfl
  | cons c t ih =>
    by_cases hc : isSpaceB c = true
    · simp [skipSpaces, hc, ih]
    · simp [skipSpaces, hc]

theorem scanIntW_skipSpaces (w : Nat) (s : List Nat) :
    scanIntW w (skipSpaces s) = scanIntW w s := by
  rw [scanIntW, scanIntW, skipSpaces_idem]

theorem scanIntW_decStr (w n : Nat) (hw : 0 < w) (h : n < 10 ^ w) (rest : List Nat) :
    scanIntW w (decStr w n ++ rest) = some ((n : Int), rest) := by
  obtain ⟨w', rfl⟩ : ∃ w'', w = w'' + 1 := ⟨w - 1, by omega⟩
  have hlen := decStr_length_eq (w' + 1) n h
  have hne : decStr (w' + 1) n ≠ [] := by
    intro h0
    rw [h0] at hlen
    simp at hlen
  obtain ⟨c, t, hct⟩ := List.exists_cons_of_ne_nil hne
  have hcd : isDigitB c = true := decStr_digits _ _ c (by rw [hct]; exact List.mem_cons_self c t)
  have hcs : isSpaceB c = false := digit_not_space hcd
  have hc48 : 48 ≤ c ∧ c ≤ 57 := by simp [isDigitB] at hcd; omega
  have hskip : skipSpaces (decStr (w' + 1) n ++ rest) = c :: (t ++ rest) := by
    rw [hct]
    simp [skipSpaces, hcs]
  have hlt : (c :: t).length = w' + 1 := by rw [← hct, hlen]
  have hscan : scanDigitsAux (w' + 1) 0 (c :: (t ++ rest)) = (n, rest) := by
    have h2 := scanDigitsAux_exact (c :: t)
      (by intro x hx; exact decStr_digits _ _ x (by rw [hct]; exact hx)) 0 rest
    rw [hlt, List.cons_append] at h2
    have h3 : List.foldl (fun a c => a * 10 + (c - 48)) 0 (c :: t) = n := by
      rw [← hct]
      exact decStr_val _ _
    rw [h2, h3]
  rw [scanIntW, hskip]
  simp only [scanIntWCore]
  rw [if_neg (by omega : ¬c = 45), if_neg (by omega : ¬c = 43), if_pos hcd]
  simp [scanAfterSign, hcd, hscan]

theorem scanAfterSign_bound (neg : Bool) (w : Nat) (s : List Nat) (v : Int)
    (r : List Nat) (h : scanAfterSign neg w s = some (v, r)) :
    v.natAbs < 10 ^ w := by
  match w, s with
  | _, [] => simp [scanAfterSign] at h
  | 0, c :: t => simp [scanAfterSign] at h
  | w' + 1, c :: t =>
    simp only [scanAfterSign] at h
    by_cases hd : isDigitB c = true
    · rw [if_pos hd] at h
      simp only [Option.some.injEq, Prod.mk.injEq] at h
      have hb := scanDigitsAux_lt (w' + 1) 0 (c :: t)
      simp only [Nat.one_mul] at hb
      have hv := h.1
      cases neg <;> simp at hv <;> omega
    · rw [if_neg hd] at h
      simp at h

theorem scanIntW_bound (w : Nat) (s : List Nat) (v : Int) (r : List Nat)
    (h : scanIntW w s = some (v, r)) : -(10 ^ w : Int) < v ∧ v < 10 ^ w := by
  have key : v.natAbs < 10 ^ w := by
    rw [scanIntW] at h
    match hs : skipSpaces s with
    | [] => rw [hs] at h; simp [scanIntWCore] at h
    | c :: t =>
      rw [hs] at h
      simp only [scanIntWCore] at h
      by_cases h45 : c = 45
      · rw [if_pos h45] at h
        have := scanAfterSign_bound true (w - 1) t v r h
        have hle : 10 ^ (w - 1) ≤ 10 ^ w := Nat.pow_le_pow_right (by norm_num) (by omega)
        omega
      · rw [if_neg h45] at h
        by_cases h43 : c = 43
        · rw [if_pos h43] at h
          have := scanAfterSign_bound false (w - 1) t v r h
          have hle : 10 ^ (w - 1) ≤ 10 ^ w := Nat.pow_le_pow_right (by norm_num) (by omega)
          omega
        · rw [if_neg h43] at h
          by_cases hd : isDigitB c = true
          · rw [if_pos hd] at h
            exact scanAfterSign_bound false w (c :: t) v r h
          · rw [if_neg hd] at h
            simp at h
  have hcast : ((10 ^ w : Nat) : Int) = 10 ^ w := by push_cast; ring
  omega

/-! Helper lemmas: the full header parse -/

theorem takeWhile_all {p : Nat → Bool} :
    ∀ {l : List Nat}, (∀ c ∈ l, p c = true) → l.takeWhile p = l := by
  intro l
  induction l with
  | nil => intro _; rfl
  | cons c t ih =>
    intro h
    rw [List.takeWhile_cons, if_pos (h c (List.mem_cons_self c t)),
      ih (fun x hx => h x (List.mem_cons_of_mem c hx))]

theorem msghdrBytes_assoc (size : Nat) (seqno qtime : Int) :
    msghdrBytes size seqno qtime =
      decStr 8 (22 + size) ++
        (66 :: 73 :: 1 :: 13 :: 13 :: 10 ::
          (intDecStr 5 seqno ++ (intDecStr 10 qtime ++ [13, 13, 10]))) := by
  simp [msghdrBytes]

theorem msghdrBytes_length (size : Nat) (seqno qtime : Int) :
    (msghdrBytes size seqno qtime).length =
      (decStr 8 (22 + size)).length + (intDecStr 5 seqno).length +
        (intDecStr 10 qtime).length + 9 := by
  simp [msghdrBytes]
  omega

theorem intDecStr_nonneg (w : Nat) (i : Int) (h : 0 ≤ i) :
    intDecStr w i = decStr w i.toNat := by
  rw [intDecStr, if_neg (by omega)]

theorem intDecStr_length_neg (w : Nat) (i : Int) (h : i < 0) :
    w + 1 ≤ (intDecStr w i).length := by
  rw [intDecStr, if_pos h]
  simp [decStr_length]

theorem intDecStr_length_big (w : Nat) (i : Int) (h : (10 ^ w : Int) ≤ i) :
    w + 1 ≤ (intDecStr w i).length := by
  have h0 : 0 ≤ i := le_trans (by positivity) h
  rw [intDecStr_nonneg w i h0, decStr_length, decDigits_length]
  have hcast : ((10 ^ w : Nat) : Int) = (10 : Int) ^ w := by push_cast; ring
  have hge : 10 ^ w ≤ i.toNat := by omega
  have hnot : ¬(Nat.digits 10 i.toNat).length ≤ w := by
    rw [digits_length_le_iff]
    omega
  omega

theorem msghdrBytes_ne_zero (size : Nat) (seqno qtime : Int) :
    ∀ c ∈ msghdrBytes size seqno qtime, (c != 0) = true := by
  intro c hc
  rw [msghdrBytes_assoc] at hc
  have digitNe : ∀ x : Nat, isDigitB x = true → (x != 0) = true := by
    intro x hx
    simp [isDigitB] at hx
    simp
    omega
  have fromIntDec : ∀ (w : Nat) (i : Int), c ∈ intDecStr w i → (c != 0) = true := by
    intro w i hci
    rw [intDecStr] at hci
    split at hci
    · rcases List.mem_cons.mp hci with h | h
      · subst h; rfl
      · exact digitNe c (decStr_digits _ _ c h)
    · exact digitNe c (decStr_digits _ _ c hci)
  rcases List.mem_append.mp hc with h | h
  · exact digitNe c (decStr_digits _ _ c h)
  · rcases List.mem_cons.mp h with h | h
    · subst h; rfl
    · rcases List.mem_cons.mp h with h | h
      · subst h; rfl
      · rcases List.mem_cons.mp h with h | h
        · subst h; rfl
        · rcases List.mem_cons.mp h with h | h
          · subst h; rfl
          · rcases List.mem_cons.mp h with h | h
            · subst h; rfl
            · rcases List.mem_cons.mp h with h | h
              · subst h; rfl
              · rcases List.mem_append.mp h with h | h
                · exact fromIntDec 5 seqno h
                · rcases List.mem_append.mp h with h | h
                  · exact fromIntDec 10 qtime h
                  · rcases List.mem_cons.mp h with h | h
                    · subst h; rfl
                    · rcases List.mem_cons.mp h with h | h
                      · subst h; rfl
                      · rcases List.mem_cons.mp h with h | h
                        · subst h; rfl
                        · simp at h

theorem scanStrW_BI (x : List Nat) :
    scanStrW 2 (66 :: 73 :: 1 :: x) = some ([66, 73], 1 :: x) := rfl

theorem matchByte_hit (b : Nat) (x : List Nat) : matchByte b (b :: x) = some x := by
  simp [matchByte]

theorem skipSpaces_crcrlf (x : List Nat) :
    skipSpaces (13 :: 13 :: 10 :: x) = skipSpaces x := rfl

/-- Parsing the formatted header recovers the product fields: the scan of
the 8-digit size field, the BI mnemonic, the SOH and terminators, and
the 5-digit seqno and 10-digit queue_time fields. -/
theorem parse_msghdr_roundtrip_nat (size sq qt : Nat)
    (hsz : 22 + size < 10 ^ 8) (hsq : sq < 10 ^ 5) (hqt : qt < 10 ^ 10) :
    parse_msghdr (decStr 8 (22 + size) ++
        (66 :: 73 :: 1 :: 13 :: 13 :: 10 ::
          (decStr 5 sq ++ (decStr 10 qt ++ [13, 13, 10])))) 32 =
      some ((size : Int), (sq : Int), (qt : Int)) := by
  set B := decStr 8 (22 + size) ++
    (66 :: 73 :: 1 :: 13 :: 13 :: 10 ::
      (decStr 5 sq ++ (decStr 10 qt ++ [13, 13, 10]))) with hB
  have hlen : B.length = 32 := by
    rw [hB]
    simp [decStr_length_eq 8 (22 + size) hsz, decStr_length_eq 5 sq hsq,
      decStr_length_eq 10 qt hqt]
  have htake : B.take 32 = B := by
    rw [← hlen]
    exact List.take_length B
  have hnz : ∀ c ∈ B, (c != 0) = true := by
    intro c hc
    refine msghdrBytes_ne_zero size (sq : Int) (qt : Int) c ?_
    rw [msghdrBytes_assoc, intDecStr_nonneg 5 _ (by positivity),
      intDecStr_nonneg 10 _ (by positivity)]
    rw [hB] at hc
    simpa [Int.toNat_natCast] using hc
  have hs0 : (B.take 32).takeWhile (fun c => c != 0) = B := by
    rw [htake]
    exact takeWhile_all hnz
  have h1 : scanIntW 8 B = some (((22 + size : Nat) : Int),
      66 :: 73 :: 1 :: 13 :: 13 :: 10 :: (decStr 5 sq ++ (decStr 10 qt ++ [13, 13, 10]))) :=
    scanIntW_decStr 8 (22 + size) (by norm_num) hsz _
  have h4 : scanIntW 5 (decStr 5 sq ++ (decStr 10 qt ++ [13, 13, 10])) =
      some ((sq : Int), decStr 10 qt ++ [13, 13, 10]) :=
    scanIntW_decStr 5 sq (by norm_num) hsq _
  have h5 : scanIntW 10 (decStr 10 qt ++ [13, 13, 10]) =
      some ((qt : Int), [13, 13, 10]) :=
    scanIntW_decStr 10 qt (by norm_num) hqt _
  rw [parse_msghdr, if_neg (by decide : ¬(32 : Nat) < MSG_HDR_LEN + PROD_HDR_LEN)]
  rw [hs0, h1]
  simp only [Option.some_bind, scanStrW_BI, matchByte_hit, skipSpaces_crcrlf]
  rw [← scanIntW_skipSpaces 5 _, skipSpaces_idem, scanIntW_skipSpaces 5 _, h4]
  simp only [Option.some_bind]
  rw [h5]
  simp only [Option.some_bind, Option.some.injEq, Prod.mk.injEq]
  push_cast
  simp


/-- Bounds collected for format_msghdr succeeding. -/
theorem format_msghdr_ok (size : Nat) (seqno qtime : Int)
    (h1 : 1 ≤ size) (h2 : size ≤ MAX_PROD_SIZE) (h3 : 0 ≤ seqno)
    (h4 : seqno ≤ (MAX_PROD_SEQNO : Int)) (h5 : 0 ≤ qtime)
    (h6 : qtime < 10000000000) :
    format_msghdr size seqno qtime = some (msghdrBytes size seqno qtime) ∧
    (decStr 8 (22 + size)).length = 8 ∧ (intDecStr 5 seqno).length = 5 ∧
    (intDecStr 10 qtime).length = 10 ∧
    (msghdrBytes size seqno qtime).length = 32 := by
  have hsz : 22 + size < 10 ^ 8 := by
    simp only [MAX_PROD_SIZE] at h2
    omega
  have hsq : seqno.toNat < 10 ^ 5 := by
    simp only [MAX_PROD_SEQNO] at h4
    omega
  have hqt : qtime.toNat < 10 ^ 10 := by omega
  have l8 : (decStr 8 (22 + size)).length = 8 := decStr_length_eq _ _ hsz
  have l5 : (intDecStr 5 seqno).length = 5 := by
    rw [intDecStr_nonneg 5 seqno h3]
    exact decStr_length_eq _ _ hsq
  have l10 : (intDecStr 10 qtime).length = 10 := by
    rw [intDecStr_nonneg 10 qtime h5]
    exact decStr_length_eq _ _ hqt
  have hlen : (msghdrBytes size seqno qtime).length = 32 := by
    rw [msghdrBytes_length, l8, l5, l10]
  refine ⟨?_, l8, l5, l10, hlen⟩
  rw [format_msghdr, if_neg (by simp only [MAX_PROD_SIZE]; omega),
    if_neg (by simp only [MAX_PROD_SEQNO]; push_cast; omega),
    if_pos (by rw [hlen]; decide)]

/-- format_msghdr fails outside the in-bounds region. -/
theorem format_msghdr_fail (size : Nat) (seqno qtime : Int)
    (h : ¬(1 ≤ size ∧ size ≤ MAX_PROD_SIZE ∧ 0 ≤ seqno ∧
      seqno ≤ (MAX_PROD_SEQNO : Int) ∧ 0 ≤ qtime ∧ qtime < 10000000000)) :
    format_msghdr size seqno qtime = none := by
  by_cases c1 : size = 0 ∨ MAX_PROD_SIZE < size
  · rw [format_msghdr, if_pos c1]
  · by_cases c2 : seqno < 0 ∨ (MAX_PROD_SEQNO : Int) < seqno
    · rw [format_msghdr, if_neg c1, if_pos c2]
    · have hq : qtime < 0 ∨ 10000000000 ≤ qtime := by
        push_neg at c1 c2 h
        rcases Nat.eq_zero_or_pos size with h0 | h0
        · exact absurd h0 c1.1
        · have := h (by omega) c1.2 c2.1 c2.2
          omega
      push_neg at c1 c2
      have hsz : 22 + size < 10 ^ 8 := by
        simp only [MAX_PROD_SIZE] at c1
        omega
      have l8 : (decStr 8 (22 + size)).length = 8 := decStr_length_eq _ _ hsz
      have l5 : (intDecStr 5 seqno).length = 5 := by
        rw [intDecStr_nonneg 5 seqno c2.1]
        refine decStr_length_eq _ _ ?_
        simp only [MAX_PROD_SEQNO] at c2
        omega
      have l10 : 11 ≤ (intDecStr 10 qtime).length := by
        rcases hq with hq | hq
        · exact intDecStr_length_neg 10 qtime hq
        · refine intDecStr_length_big 10 qtime ?_
          norm_num
          omega
      have hlen : 33 ≤ (msghdrBytes size seqno qtime).length := by
        rw [msghdrBytes_length, l8, l5]
        omega
      rw [format_msghdr, if_neg (by omega : ¬(size = 0 ∨ MAX_PROD_SIZE < size)),
        if_neg (by omega : ¬(seqno < 0 ∨ (MAX_PROD_SEQNO : Int) < seqno)),
        if_neg (by simp only [MSG_HDR_LEN, PROD_HDR_LEN]; omega)]

/-- C1: Message-header round trip: for every product with size in
[1, MAX_PROD_SIZE], seqno in [0, 99999], and a queue_time of at most 10
decimal digits, formatting the 32-byte message-plus-product header with
format_msghdr and then parsing it with parse_msghdr (buflen 32) succeeds
and returns exactly the original size, seqno and queue_time. -/
theorem format_parse_msghdr_roundtrip (size : Nat) (seqno qtime : Int)
    (h1 : 1 ≤ size) (h2 : size ≤ MAX_PROD_SIZE)
    (h3 : 0 ≤ seqno) (h4 : seqno ≤ (MAX_PROD_SEQNO : Int))
    (h5 : 0 ≤ qtime) (h6 : qtime < 10000000000) :
    format_msghdr size seqno qtime = some (msghdrBytes size seqno qtime) ∧
    parse_msghdr (msghdrBytes size seqno qtime) 32 =
      some ((size : Int), seqno, qtime) := by
  obtain ⟨hfmt, _, _, _, _⟩ := format_msghdr_ok size seqno qtime h1 h2 h3 h4 h5 h6
  refine ⟨hfmt, ?_⟩
  have hsz : 22 + size < 10 ^ 8 := by
    simp only [MAX_PROD_SIZE] at h2
    omega
  have hsq : seqno.toNat < 10 ^ 5 := by
    simp only [MAX_PROD_SEQNO] at h4
    omega
  have hqt : qtime.toNat < 10 ^ 10 := by omega
  have hp := parse_msghdr_roundtrip_nat size seqno.toNat qtime.toNat hsz hsq hqt
  rw [msghdrBytes_assoc, intDecStr_nonneg 5 seqno h3, intDecStr_nonneg 10 qtime h5,
    hp, Int.toNat_of_nonneg h3, Int.toNat_of_nonneg h5]

/-- C1 witness at size 5, seqno 1, queue_time 0. -/
theorem format_parse_msghdr_roundtrip_witness :
    format_msghdr 5 1 0 = some (msghdrBytes 5 1 0) ∧
    parse_msghdr (msghdrBytes 5 1 0) 32 = some ((5 : Int), 1, 0) :=
  format_parse_msghdr_roundtrip 5 1 0 (by decide) (by decide) (by decide)
    (by decide) (by decide) (by decide)

/-- C8 counterexample to the claim as frozen: size = 1 and seqno = 0 are
inside the claimed bounds, yet with queue_time = -1 (which the %.10ld
field formats to 11 characters) format_msghdr returns -1, not 32. -/
theorem format_msghdr_failure_cex :
    format_msghdr 1 0 (-1) = none ∧
    1 ≤ (1 : Nat) ∧ (1 : Nat) ≤ MAX_PROD_SIZE ∧
    (0 : Int) ≤ 0 ∧ (0 : Int) ≤ (MAX_PROD_SEQNO : Int) := by decide

/-- C8 amended: format_msghdr returns -1 (writing nothing) exactly when
size is outside [1, 99999999-22], or seqno is outside [0, 99999], or the
queue_time does not format to exactly 10 decimal digits (it is negative
or needs more than 10 digits); inside those bounds it returns the
32-byte buffer consisting of the 10-byte message header followed by the
22-byte product header. -/
theorem format_msghdr_failure_spec (size : Nat) (seqno qtime : Int) :
    (format_msghdr size seqno qtime = none ↔
      ¬(1 ≤ size ∧ size ≤ MAX_PROD_SIZE ∧ 0 ≤ seqno ∧
        seqno ≤ (MAX_PROD_SEQNO : Int) ∧ 0 ≤ qtime ∧ qtime < 10000000000)) ∧
    (1 ≤ size ∧ size ≤ MAX_PROD_SIZE ∧ 0 ≤ seqno ∧
        seqno ≤ (MAX_PROD_SEQNO : Int) ∧ 0 ≤ qtime ∧ qtime < 10000000000 →
      format_msghdr size seqno qtime =
        some ((decStr 8 (22 + size) ++ [66, 73]) ++
          ([1, 13, 13, 10] ++ intDecStr 5 seqno ++ intDecStr 10 qtime ++ [13, 13, 10])) ∧
      (decStr 8 (22 + size) ++ [66, 73]).length = MSG_HDR_LEN ∧
      ([1, 13, 13, 10] ++ intDecStr 5 seqno ++ intDecStr 10 qtime ++
        [13, 13, 10]).length = PROD_HDR_LEN) := by
  constructor
  · constructor
    · intro hnone hb
      obtain ⟨hfmt, _, _, _, _⟩ :=
        format_msghdr_ok size seqno qtime hb.1 hb.2.1 hb.2.2.1 hb.2.2.2.1
          hb.2.2.2.2.1 hb.2.2.2.2.2
      rw [hfmt] at hnone
      exact Option.noConfusion hnone
    · exact format_msghdr_fail size seqno qtime
  · intro hb
    obtain ⟨hfmt, l8, l5, l10, _⟩ :=
      format_msghdr_ok size seqno qtime hb.1 hb.2.1 hb.2.2.1 hb.2.2.2.1
        hb.2.2.2.2.1 hb.2.2.2.2.2
    refine ⟨?_, ?_, ?_⟩
    · rw [hfmt]
      congr 1
      rw [msghdrBytes]
      simp [List.append_assoc]
    · simp only [List.length_append, l8]
      decide
    · simp only [List.length_append, l5, l10]
      decide

/-- C8 witness at size 5, seqno 0, queue_time 0. -/
theorem format_msghdr_failure_spec_witness :
    format_msghdr 5 0 0 =
      some ((decStr 8 (22 + 5) ++ [66, 73]) ++
        ([1, 13, 13, 10] ++ intDecStr 5 0 ++ intDecStr 10 0 ++ [13, 13, 10])) :=
  ((format_msghdr_failure_spec 5 0 0).2 (by decide)).1

/-- The size parsed from any header is msg_size - 22 with msg_size read
from an 8-wide %d field, so it lies in (-(10^8) - 22, 10^8 - 22). -/
theorem parse_msghdr_size_bound (buf : List Nat) (n : Nat) (szS seq qt : Int)
    (h : parse_msghdr buf n = some (szS, seq, qt)) :
    -(10 ^ 8 : Int) - 22 < szS ∧ szS < 10 ^ 8 - 22 := by
  rw [parse_msghdr] at h
  split at h
  · exact Option.noConfusion h
  · simp only [Option.bind_eq_some] at h
    obtain ⟨r1, h1, r2, h2, s3, h3, r4, h4, r5, h5, hfin⟩ := h
    simp only [Option.some.injEq, Prod.mk.injEq] at hfin
    have hb := scanIntW_bound 8 _ r1.1 r1.2 h1
    have h8 : (10 : Int) ^ 8 = 100000000 := by norm_num
    omega

/-- The C test "p_prod->size <= 0 || p_prod->size > MAX_PROD_SIZE" on the
unsigned size_t field is, for the parse-produced signed value, exactly
the signed test size <= 0 or size > MAX_PROD_SIZE. -/
theorem toSizeT_spec (z : Int) (hlo : -(10 ^ 8 : Int) - 22 < z)
    (hhi : z < 10 ^ 8 - 22) :
    (toSizeT z = 0 ∨ MAX_PROD_SIZE < toSizeT z) ↔
      (z ≤ 0 ∨ (MAX_PROD_SIZE : Int) < z) := by
  have h64 : (2 : Int) ^ 64 = 18446744073709551616 := by norm_num
  have h8 : (10 : Int) ^ 8 = 100000000 := by norm_num
  have hmaxN : MAX_PROD_SIZE = 99999977 := by norm_num [MAX_PROD_SIZE]
  rw [toSizeT, h64, hmaxN]
  omega

/-- C2: recv_msghdr returns an error exactly when the parsed size is <= 0
or greater than MAX_PROD_SIZE, or when the parsed seqno differs from the
expected next seqno and is not 0; a parsed seqno of 0 is always accepted
as a client-reconnect reset.  Stated for every received 32-byte header
that parses (an unparseable header is separately fatal at the
parse_msghdr call). -/
theorem recv_msghdr_error_iff (buf : List Nat) (expected szS seq qt : Int)
    (hp : parse_msghdr buf 32 = some (szS, seq, qt)) :
    (recv_msghdr buf expected = none ↔
      (szS ≤ 0 ∨ (MAX_PROD_SIZE : Int) < szS ∨ (seq ≠ expected ∧ seq ≠ 0))) := by
  have hb := parse_msghdr_size_bound buf 32 szS seq qt hp
  have hsz := toSizeT_spec szS hb.1 hb.2
  simp only [recv_msghdr, hp]
  by_cases hseq : seq ≠ expected ∧ seq ≠ 0
  · rw [if_pos hseq]
    simp [hseq]
  · rw [if_neg hseq]
    by_cases hcond : toSizeT szS = 0 ∨ MAX_PROD_SIZE < toSizeT szS
    · rw [if_pos hcond]
      have := hsz.mp hcond
      simp only [true_iff, eq_self_iff_true]
      tauto
    · rw [if_neg hcond]
      constructor
      · intro hfalse
        exact Option.noConfusion hfalse
      · intro hx
        exfalso
        rcases hx with hx | hx | hx
        · exact hcond (hsz.mpr (Or.inl hx))
        · exact hcond (hsz.mpr (Or.inr hx))
        · exact hseq hx

/-- C2 witness: the header for (size 5, seqno 1, queue_time 0) with
expected seqno 2 is rejected (seqno mismatch and not 0). -/
theorem recv_msghdr_error_iff_witness :
    recv_msghdr (msghdrBytes 5 1 0) 2 = none :=
  (recv_msghdr_error_iff (msghdrBytes 5 1 0) 2 5 1 0 (by decide)).mpr (by decide)

/-- C9: pop_prod on an empty list is a safe no-op: when the head pointer
is NULL it returns NULL and leaves head, tail and count unchanged; on a
non-empty list it removes and returns the head, decrements count by one,
and the tail (items.getLast?) is null when the list becomes empty. -/
theorem pop_prod_spec (l : ProdList) :
    (l.items = [] → pop_prod l = (none, l)) ∧
    (∀ p t, l.items = p :: t →
      pop_prod l = (some p, { items := t, count := l.count - 1 }) ∧
      (t = [] →
        ({ items := t, count := l.count - 1 } : ProdList).items.getLast? = none)) := by
  constructor
  · intro h
    simp [pop_prod, h]
  · intro p t h
    refine ⟨by simp [pop_prod, h], ?_⟩
    intro ht
    subst ht
    rfl

/-- C9 witness: the empty list with count 5 and the list [4, 7] with
count 2. -/
theorem pop_prod_spec_witness :
    pop_prod ⟨[], 5⟩ = (none, ⟨[], 5⟩) ∧
    pop_prod ⟨[4, 7], 2⟩ = (some 4, ⟨[7], (2 : Int) - 1⟩) :=
  ⟨(pop_prod_spec ⟨[], 5⟩).1 rfl, ((pop_prod_spec ⟨[4, 7], 2⟩).2 4 [7] rfl).1⟩

/-- C10: my_rename terminates on every input: the loop returns -1 as soon
as rename fails twice consecutively with the same errno; on EXDEV it
copies then unlinks and returns in that iteration; on any failure errno
other than EXDEV and ENOENT it returns -1 immediately; two loop
iterations of fuel always suffice, so the loop can never run forever. -/
theorem my_rename_terminates (env : RenameEnv) (last k e : Nat) :
    my_rename env ≠ none ∧
    (∀ fuel, env.renameRes k = .fail e → e = last →
      my_rename_loop env (fuel + 1) last k = some (-1)) ∧
    (∀ fuel, env.renameRes k = .fail EXDEV → EXDEV ≠ last →
      my_rename_loop env (fuel + 1) last k = some (if env.copyOk then 0 else -1)) ∧
    (∀ fuel, env.renameRes k = .fail e → e ≠ last → e ≠ EXDEV → e ≠ ENOENT →
      my_rename_loop env (fuel + 1) last k = some (-1)) := by
  have inner : ∀ k', my_rename_loop env 1 ENOENT k' ≠ none := by
    intro k'
    cases h1 : env.renameRes k' with
    | ok => simp [my_rename_loop, h1]
    | fail e' =>
      simp only [my_rename_loop, h1]
      by_cases he' : e' = ENOENT
      · simp [he']
      · rw [if_neg he']
        by_cases hex' : e' = EXDEV
        · rw [if_pos hex']
          split <;> simp
        · rw [if_neg hex', if_neg he']
          simp
  refine ⟨?_, ?_, ?_, ?_⟩
  · rw [my_rename]
    have h2 : my_rename_loop env 2 0 0 = my_rename_loop env (1 + 1) 0 0 := rfl
    rw [h2]
    cases h0 : env.renameRes 0 with
    | ok => simp [my_rename_loop, h0]
    | fail e0 =>
      simp only [my_rename_loop, h0]
      by_cases he0 : e0 = 0
      · simp [he0]
      · rw [if_neg he0]
        by_cases hex : e0 = EXDEV
        · rw [if_pos hex]
          split <;> simp
        · rw [if_neg hex]
          by_cases hen : e0 = ENOENT
          · rw [if_pos hen]
            subst hen
            by_cases hsl : env.targetHasDirSlash = true
            · rw [if_pos hsl]
              by_cases hmk : env.mkdirOk 0 = true
              · rw [if_pos hmk]
                exact inner 1
              · rw [if_neg hmk]
                simp
            · rw [if_neg hsl]
              exact inner 1
          · rw [if_neg hen]
            simp
  · intro fuel h1 h2
    simp [my_rename_loop, h1, h2]
  · intro fuel h1 h2
    simp only [my_rename_loop, h1]
    rw [if_neg h2]
    cases hc : env.copyOk <;> simp [hc]
  · intro fuel h1 h2 h3 h4
    simp only [my_rename_loop, h1]
    rw [if_neg h2, if_neg h3, if_neg h4]

/-- C10 witness: all renames fail with ENOENT; the first iteration
retries after mkdir and the second returns -1 on the repeated errno. -/
theorem my_rename_terminates_witness :
    my_rename envW ≠ none ∧ my_rename_loop envW 1 2 1 = some (-1) :=
  ⟨(my_rename_terminates envW 0 0 0).1,
   (my_rename_terminates envW 2 1 2).2.1 0 rfl rfl⟩

/-- C6 counterexample to the stability conjunct: two entries tied on
priority and mtime may legally come back from qsort in reversed
enumeration order, since the libc qsort contract promises only a
comparator-sorted permutation. -/
theorem queue_sort_stability_cex :
    qsortRel [qeA, qeB] [qeB, qeA] ∧
    qeA.priority = qeB.priority ∧ qeA.queue_time = qeB.queue_time ∧
    qeB ≠ qeA ∧ [qeB, qeA] ≠ [qeA, qeB] := by
  refine ⟨⟨List.Perm.swap _ _ _, ?_⟩, by decide, by decide, by decide, by decide⟩
  rw [sortedByCmp]
  refine List.Pairwise.cons ?_ (List.pairwise_singleton _ _)
  intro b hb
  rw [List.mem_singleton] at hb
  subst hb
  decide

/-- C6 amended: every snapshot a refresh can produce (any
comparator-sorted permutation of the collected entries, which is all the
qsort contract guarantees) is ordered by priority descending then mtime
ascending; entries tied on both may appear in any order; and
compare_items returns negative, zero or positive accordingly for every
pair of entries. -/
theorem queue_sort_order_amended :
    (∀ a b : QEntry,
      (compare_items a b < 0 ↔
        (b.priority < a.priority ∨
          (a.priority = b.priority ∧ a.queue_time < b.queue_time))) ∧
      (compare_items a b = 0 ↔
        (a.priority = b.priority ∧ a.queue_time = b.queue_time)) ∧
      (0 < compare_items a b ↔
        (a.priority < b.priority ∨
          (a.priority = b.priority ∧ b.queue_time < a.queue_time)))) ∧
    (∀ (maxq now : Int) (inflight : List (List Nat)) (dirs : List FsDir)
        (l' : List QEntry),
      qsortRel (pollDirs maxq now inflight dirs) l' →
      l'.Pairwise (fun a b =>
        b.priority < a.priority ∨
          (a.priority = b.priority ∧ a.queue_time ≤ b.queue_time))) := by
  constructor
  · intro a b
    refine ⟨?_, ?_, ?_⟩ <;> (unfold compare_items; split_ifs <;> norm_num <;> omega)
  · intro maxq now inflight dirs l' h
    refine h.2.imp ?_
    intro a b hab
    unfold compare_items at hab
    split_ifs at hab <;> omega

/-- C6 witness: the two-directory refresh collects entries already in
sorted order, so the identity permutation is a valid qsort outcome. -/
theorem queue_sort_order_amended_witness :
    (pollDirs 0 100 [] [fsDirA, fsDirB]).Pairwise (fun a b =>
      b.priority < a.priority ∨
        (a.priority = b.priority ∧ a.queue_time ≤ b.queue_time)) :=
  queue_sort_order_amended.2 0 100 [] [fsDirA, fsDirB]
    (pollDirs 0 100 [] [fsDirA, fsDirB])
    ⟨List.Perm.refl _, by rw [sortedByCmp]; decide⟩

/-- The per-directory loop keeps the queue at the cap when it enters
below the cap. -/
theorem pollDirAux_len_low (maxq now : Int) (inflight : List (List Nat))
    (dp : List Nat) (pr : Int) (hm : 0 < maxq) :
    ∀ (es : List FsEntry) (acc : List QEntry), (acc.length : Int) < maxq →
      ((pollDirAux maxq now inflight dp pr es acc).length : Int) ≤ maxq := by
  intro es
  induction es with
  | nil =>
    intro acc h
    rw [pollDirAux]
    omega
  | cons e rest ih =>
    intro acc h
    rw [pollDirAux]
    by_cases hs : entrySkip now inflight dp e = true
    · rw [if_pos hs]
      exact ih acc h
    · rw [if_neg hs]
      by_cases hc : 0 < maxq ∧
          maxq ≤ ((acc ++ [(⟨dp ++ 47 :: e.ename, e.mtime, e.fsize, pr⟩ : QEntry)]).length : Int)
      · rw [if_pos hc]
        simp only [List.length_append, List.length_singleton]
        push_cast
        omega
      · rw [if_neg hc]
        refine ih _ ?_
        simp only [List.length_append, List.length_singleton] at hc ⊢
        push_cast at hc ⊢
        omega

/-- The per-directory loop adds at most one entry when it enters at or
above the cap. -/
theorem pollDirAux_len_high (maxq now : Int) (inflight : List (List Nat))
    (dp : List Nat) (pr : Int) (hm : 0 < maxq) :
    ∀ (es : List FsEntry) (acc : List QEntry), maxq ≤ (acc.length : Int) →
      (pollDirAux maxq now inflight dp pr es acc).length ≤ acc.length + 1 := by
  intro es
  induction es with
  | nil =>
    intro acc h
    rw [pollDirAux]
    omega
  | cons e rest ih =>
    intro acc h
    rw [pollDirAux]
    by_cases hs : entrySkip now inflight dp e = true
    · rw [if_pos hs]
      exact ih acc h
    · rw [if_neg hs]
      rw [if_pos ⟨hm, by simp only [List.length_append, List.length_singleton]; push_cast; omega⟩]
      simp

/-- The directory loop: each directory entered at or above the cap adds
at most one entry. -/
theorem pollDirsAux_len (maxq now : Int) (inflight : List (List Nat))
    (hm : 0 < maxq) :
    ∀ (dirs : List FsDir) (acc : List QEntry) (pr : Int) (j : Nat),
      (acc.length : Int) ≤ maxq + j →
      ((pollDirsAux maxq now inflight dirs pr acc).length : Int) ≤
        maxq + j + dirs.length := by
  intro dirs
  induction dirs with
  | nil =>
    intro acc pr j h
    rw [pollDirsAux]
    simpa using h
  | cons d rest ih =>
    intro acc pr j h
    rw [pollDirsAux]
    have hacc' : (((if d.openOk then
        pollDirAux maxq now inflight d.dpath pr d.entries acc else acc).length : Int)) ≤
        maxq + (j + 1) := by
      by_cases ho : d.openOk = true
      · rw [if_pos ho]
        by_cases hlow : (acc.length : Int) < maxq
        · have := pollDirAux_len_low maxq now inflight d.dpath pr hm d.entries acc hlow
          omega
        · have := pollDirAux_len_high maxq now inflight d.dpath pr hm d.entries acc
            (by omega)
          omega
      · rw [if_neg ho]
        omega
    have := ih _ (pr - 1) (j + 1) hacc'
    simp only [List.length_cons] at this ⊢
    push_cast at this ⊢
    omega

/-- With a non-positive cap the per-directory loop collects every
eligible entry. -/
theorem pollDirAux_nocap (maxq now : Int) (inflight : List (List Nat))
    (dp : List Nat) (pr : Int) (hm : maxq ≤ 0) :
    ∀ (es : List FsEntry) (acc : List QEntry),
      pollDirAux maxq now inflight dp pr es acc =
        acc ++ (es.filter (fun e => !entrySkip now inflight dp e)).map
          (fun e => ⟨dp ++ 47 :: e.ename, e.mtime, e.fsize, pr⟩) := by
  intro es
  induction es with
  | nil =>
    intro acc
    simp [pollDirAux]
  | cons e rest ih =>
    intro acc
    rw [pollDirAux]
    by_cases hs : entrySkip now inflight dp e = true
    · rw [if_pos hs, ih, List.filter_cons]
      simp [hs]
    · rw [if_neg hs, if_neg (by rintro ⟨h1, -⟩; omega), ih, List.filter_cons]
      simp [hs]

/-- With a non-positive cap the whole refresh collects every eligible
entry of every directory. -/
theorem pollDirsAux_nocap (maxq now : Int) (inflight : List (List Nat))
    (hm : maxq ≤ 0) :
    ∀ (dirs : List FsDir) (pr : Int) (acc : List QEntry),
      pollDirsAux maxq now inflight dirs pr acc =
        allEligibleAux now inflight dirs pr acc := by
  intro dirs
  induction dirs with
  | nil => intro pr acc; rfl
  | cons d rest ih =>
    intro pr acc
    rw [pollDirsAux, allEligibleAux, ih]
    congr 1
    by_cases ho : d.openOk = true
    · rw [if_pos ho, if_pos ho, pollDirAux_nocap maxq now inflight d.dpath pr hm]
    · rw [if_neg ho, if_neg ho]

/-- C7 counterexample to the claim as frozen: with max_queue_len = 1 and
two input directories each holding one eligible file, a refresh collects
two entries, because the cap check only breaks out of the inner
per-directory readdir loop. -/
theorem max_queue_len_cap_cex :
    (0 : Int) < 1 ∧ ¬((pollDirs 1 100 [] [fsDirA, fsDirB]).length ≤ 1) := by decide

/-- C7 amended: when max_queue_len is positive, polling of the current
directory stops once max_queue_len entries have been collected, but each
subsequent directory may contribute one more entry, so a refresh yields
at most max_queue_len + (number of input directories - 1) entries; a
non-positive max_queue_len imposes no cap (every eligible entry is
collected). -/
theorem max_queue_len_cap_amended (maxq now : Int) (inflight : List (List Nat))
    (dirs : List FsDir) :
    (0 < maxq →
      ((pollDirs maxq now inflight dirs).length : Int) ≤ maxq + dirs.length - 1) ∧
    (maxq ≤ 0 → pollDirs maxq now inflight dirs = allEligible now inflight dirs) := by
  constructor
  · intro hm
    match dirs with
    | [] =>
      rw [pollDirs, pollDirsAux]
      simp
      omega
    | d :: rest =>
      rw [pollDirs, pollDirsAux]
      have hacc1 : (((if d.openOk then
          pollDirAux maxq now inflight d.dpath (((d :: rest).length : Int) - 1)
            d.entries [] else ([] : List QEntry)).length : Int)) ≤ maxq + (0 : Nat) := by
        by_cases ho : d.openOk = true
        · rw [if_pos ho]
          have := pollDirAux_len_low maxq now inflight d.dpath
            (((d :: rest).length : Int) - 1) hm d.entries [] (by simp; omega)
          push_cast
          omega
        · rw [if_neg ho]
          simp
          omega
      have hfin := pollDirsAux_len maxq now inflight hm rest
        (if d.openOk then
          pollDirAux maxq now inflight d.dpath (((d :: rest).length : Int) - 1)
            d.entries [] else ([] : List QEntry))
        ((((d :: rest).length : Int) - 1) - 1) 0 hacc1
      simp only [List.length_cons] at hfin ⊢
      push_cast at hfin ⊢
      omega
  · intro hm
    rw [pollDirs, allEligible]
    exact pollDirsAux_nocap maxq now inflight hm dirs _ []

/-- C7 witness: the two-directory refresh with cap 1 stays within
cap + dirs - 1 = 2 entries, and with cap 0 collects everything. -/
theorem max_queue_len_cap_amended_witness :
    (((pollDirs 1 100 [] [fsDirA, fsDirB]).length : Int) ≤
      1 + ([fsDirA, fsDirB] : List FsDir).length - 1) ∧
    pollDirs 0 100 [] [fsDirA, fsDirB] = allEligible 100 [] [fsDirA, fsDirB] :=
  ⟨(max_queue_len_cap_amended 1 100 [] [fsDirA, fsDirB]).1 (by decide),
   (max_queue_len_cap_amended 0 100 [] [fsDirA, fsDirB]).2 (by decide)⟩

/-! Helper lemmas: rebuild_lists -/

theorem rebuild_foldl (sts : List Char) (L : List Nat) :
    ∀ t : ProdTbl, t.states = sts →
      (L.foldl rebuildPush t).states = sts ∧
      (L.foldl rebuildPush t).free_list.items =
        t.free_list.items ++ L.filter (fun i => !sendsRetry sts i && !sendsAck sts i) ∧
      (L.foldl rebuildPush t).ack_list.items =
        t.ack_list.items ++ L.filter (fun i => !sendsRetry sts i && sendsAck sts i) ∧
      (L.foldl rebuildPush t).retr_list.items =
        t.retr_list.items ++ L.filter (fun i => sendsRetry sts i) ∧
      (L.foldl rebuildPush t).free_list.count =
        t.free_list.count +
          ((L.filter (fun i => !sendsRetry sts i && !sendsAck sts i)).length : Int) ∧
      (L.foldl rebuildPush t).ack_list.count =
        t.ack_list.count +
          ((L.filter (fun i => !sendsRetry sts i && sendsAck sts i)).length : Int) ∧
      (L.foldl rebuildPush t).retr_list.count =
        t.retr_list.count + ((L.filter (fun i => sendsRetry sts i)).length : Int) := by
  induction L with
  | nil =>
    intro t ht
    simp [ht]
  | cons i L' ih =>
    intro t ht
    rw [List.foldl_cons]
    by_cases hr : sendsRetry sts i = true
    · have heq : rebuildPush t i = { t with retr_list := push_prod t.retr_list i } := by
        rw [rebuildPush, ht, if_pos hr]
      rw [heq]
      obtain ⟨a1, a2, a3, a4, a5, a6, a7⟩ :=
        ih { t with retr_list := push_prod t.retr_list i } ht
      refine ⟨a1, ?_, ?_, ?_, ?_, ?_, ?_⟩
      · rw [a2]; simp [List.filter_cons, hr]
      · rw [a3]; simp [List.filter_cons, hr]
      · rw [a4]; simp [push_prod, List.filter_cons, hr]
      · rw [a5]; simp [List.filter_cons, hr]
      · rw [a6]; simp [List.filter_cons, hr]
      · rw [a7]; simp [push_prod, List.filter_cons, hr]; ring
    · by_cases ha : sendsAck sts i = true
      · have heq : rebuildPush t i = { t with ack_list := push_prod t.ack_list i } := by
          rw [rebuildPush, ht, if_neg (by simp [hr]), if_pos ha]
        rw [heq]
        obtain ⟨a1, a2, a3, a4, a5, a6, a7⟩ :=
          ih { t with ack_list := push_prod t.ack_list i } ht
        refine ⟨a1, ?_, ?_, ?_, ?_, ?_, ?_⟩
        · rw [a2]; simp [List.filter_cons, hr, ha]
        · rw [a3]; simp [push_prod, List.filter_cons, hr, ha]
        · rw [a4]; simp [List.filter_cons, hr]
        · rw [a5]; simp [List.filter_cons, hr, ha]
        · rw [a6]; simp [push_prod, List.filter_cons, hr, ha]; ring
        · rw [a7]; simp [List.filter_cons, hr]
      · have heq : rebuildPush t i = { t with free_list := push_prod t.free_list i } := by
          rw [rebuildPush, ht, if_neg (by simp [hr]), if_neg (by simp [ha])]
        rw [heq]
        obtain ⟨a1, a2, a3, a4, a5, a6, a7⟩ :=
          ih { t with free_list := push_prod t.free_list i } ht
        refine ⟨a1, ?_, ?_, ?_, ?_, ?_, ?_⟩
        · rw [a2]; simp [push_prod, List.filter_cons, hr, ha]
        · rw [a3]; simp [List.filter_cons, hr, ha]
        · rw [a4]; simp [List.filter_cons, hr]
        · rw [a5]; simp [push_prod, List.filter_cons, hr, ha]; ring
        · rw [a6]; simp [List.filter_cons, hr, ha]
        · rw [a7]; simp [List.filter_cons, hr]

theorem rebuild_lists_items (w : Nat) (t : ProdTbl) :
    (rebuild_lists w t).states = t.states ∧
    (rebuild_lists w t).free_list.items =
      (List.range w).filter (fun i => !sendsRetry t.states i && !sendsAck t.states i) ∧
    (rebuild_lists w t).ack_list.items =
      (List.range w).filter (fun i => !sendsRetry t.states i && sendsAck t.states i) ∧
    (rebuild_lists w t).retr_list.items =
      (List.range w).filter (fun i => sendsRetry t.states i) ∧
    (rebuild_lists w t).free_list.count =
      ((rebuild_lists w t).free_list.items.length : Int) ∧
    (rebuild_lists w t).ack_list.count =
      ((rebuild_lists w t).ack_list.items.length : Int) ∧
    (rebuild_lists w t).retr_list.count =
      ((rebuild_lists w t).retr_list.items.length : Int) := by
  obtain ⟨a1, a2, a3, a4, a5, a6, a7⟩ := rebuild_foldl t.states (List.range w)
    { t with free_list := ⟨[], 0⟩, ack_list := ⟨[], 0⟩, retr_list := ⟨[], 0⟩ } rfl
  rw [rebuild_lists]
  simp only at a1 a2 a3 a4 a5 a6 a7
  refine ⟨a1, ?_, ?_, ?_, ?_, ?_, ?_⟩ <;> simp [a2, a3, a4, a5, a6, a7]

/-- The QUEUED/RETRY and SENT dispatch predicates cannot both hold. -/
theorem sendsRetry_sendsAck_exclusive (sts : List Char) (i : Nat) :
    ¬(sendsRetry sts i = true ∧ sendsAck sts i = true) := by
  rintro ⟨hr, ha⟩
  rw [sendsRetry] at hr
  rw [sendsAck] at ha
  rcases Bool.or_eq_true_iff.mp hr with h | h <;>
    · rw [decide_eq_true_iff] at h
      rw [decide_eq_true_iff] at ha
      rw [ha] at h
      exact absurd h (by decide)

theorem filter_three_length (p q : Nat → Bool) (L : List Nat) :
    ((L.filter fun i => p i).length + (L.filter fun i => !p i && q i).length) +
      (L.filter fun i => !p i && !q i).length = L.length := by
  induction L with
  | nil => simp
  | cons x L' ih =>
    cases hp : p x <;> cases hq : q x <;>
      simp [List.filter_cons, hp, hq] <;> omega

theorem mem_filter_range {w : Nat} {p : Nat → Bool} {i : Nat} :
    i ∈ (List.range w).filter p ↔ (i < w ∧ p i = true) := by
  rw [List.mem_filter, List.mem_range]

theorem rebuild_partition (w : Nat) (t : ProdTbl) :
    (listItems (rebuild_lists w t)).Nodup ∧
    (∀ i ∈ listItems (rebuild_lists w t), i < w) ∧
    (∀ i, i < w → (listItems (rebuild_lists w t)).count i = 1) := by
  obtain ⟨hst, hf, ha, hr, _, _, _⟩ := rebuild_lists_items w t
  have hLI : listItems (rebuild_lists w t) =
      ((List.range w).filter (fun i => !sendsRetry t.states i && !sendsAck t.states i) ++
        (List.range w).filter (fun i => !sendsRetry t.states i && sendsAck t.states i)) ++
        (List.range w).filter (fun i => sendsRetry t.states i) := by
    rw [listItems, hf, ha, hr]
  have nf : ((List.range w).filter
      (fun i => !sendsRetry t.states i && !sendsAck t.states i)).Nodup :=
    (List.nodup_range w).filter _
  have na : ((List.range w).filter
      (fun i => !sendsRetry t.states i && sendsAck t.states i)).Nodup :=
    (List.nodup_range w).filter _
  have nr : ((List.range w).filter (fun i => sendsRetry t.states i)).Nodup :=
    (List.nodup_range w).filter _
  have dfa : ((List.range w).filter
      (fun i => !sendsRetry t.states i && !sendsAck t.states i)).Disjoint
      ((List.range w).filter (fun i => !sendsRetry t.states i && sendsAck t.states i)) := by
    intro x hx hy
    have h1 := (mem_filter_range.mp hx).2
    have h2 := (mem_filter_range.mp hy).2
    simp at h1 h2
    rw [h1.2] at h2
    exact absurd h2.2 (by decide)
  have dr : (((List.range w).filter
      (fun i => !sendsRetry t.states i && !sendsAck t.states i)) ++
      ((List.range w).filter
        (fun i => !sendsRetry t.states i && sendsAck t.states i))).Disjoint
      ((List.range w).filter (fun i => sendsRetry t.states i)) := by
    intro x hx hy
    have h2 := (mem_filter_range.mp hy).2
    rcases List.mem_append.mp hx with hx | hx
    · have h1 := (mem_filter_range.mp hx).2
      simp at h1
      rw [h2] at h1
      exact absurd h1.1 (by decide)
    · have h1 := (mem_filter_range.mp hx).2
      simp at h1
      rw [h2] at h1
      exact absurd h1.1 (by decide)
  refine ⟨?_, ?_, ?_⟩
  · rw [hLI]
    exact (nf.append na dfa).append nr dr
  · intro i hi
    rw [hLI] at hi
    rcases List.mem_append.mp hi with hi | hi
    · rcases List.mem_append.mp hi with hi | hi <;> exact (mem_filter_range.mp hi).1
    · exact (mem_filter_range.mp hi).1
  · intro i hi
    rw [hLI, List.count_append, List.count_append]
    by_cases hrB : sendsRetry t.states i = true
    · rw [List.count_eq_one_of_mem nr (mem_filter_range.mpr ⟨hi, hrB⟩),
        List.count_eq_zero_of_not_mem, List.count_eq_zero_of_not_mem]
      · intro hmem
        have := (mem_filter_range.mp hmem).2
        simp [hrB] at this
      · intro hmem
        have := (mem_filter_range.mp hmem).2
        simp [hrB] at this
    · by_cases haB : sendsAck t.states i = true
      · rw [List.count_eq_one_of_mem na
          (mem_filter_range.mpr ⟨hi, by simp [hrB, haB]⟩),
          List.count_eq_zero_of_not_mem, List.count_eq_zero_of_not_mem]
        · intro hmem
          have := (mem_filter_range.mp hmem).2
          simp [hrB, haB] at this
        · intro hmem
          have := (mem_filter_range.mp hmem).2
          simp [hrB, haB] at this
      · rw [List.count_eq_one_of_mem nf
          (mem_filter_range.mpr ⟨hi, by simp [hrB, haB]⟩),
          List.count_eq_zero_of_not_mem, List.count_eq_zero_of_not_mem]
        · intro hmem
          have := (mem_filter_range.mp hmem).2
          simp [hrB, haB] at this
        · intro hmem
          have := (mem_filter_range.mp hmem).2
          simp [hrB, haB] at this

/-! Helper lemmas: the list-discipline invariant -/

theorem inv_init (w : Nat) : Inv w (initState w) := by
  have hli : listItems (initState w).tbl = List.range w := by
    simp [initState, listItems]
  refine ⟨⟨?_, ?_, ?_, ?_, ?_, ?_⟩, ?_⟩
  · rw [hli]; exact List.nodup_range w
  · intro i hi; rw [hli] at hi; exact List.mem_range.mp hi
  · simp [initState]
  · simp [initState]
  · simp [initState]
  · simp [initState]
  · intro p hp; exact absurd hp (by simp [initState])

theorem inv_of_eq {w : Nat} {s s' : LoopState} (h : Inv w s)
    (ht : s'.tbl = s.tbl) (hc : s'.curr = s.curr) : Inv w s' := by
  refine ⟨⟨?_, ?_, ?_, ?_, ?_, ?_⟩, ?_⟩
  · rw [ht]; exact h.nodup
  · rw [ht]; exact h.bounded
  · rw [ht]; exact h.cf
  · rw [ht]; exact h.ca
  · rw [ht]; exact h.cr
  · rw [ht]; exact h.statesLen
  · intro p hp
    rw [ht]
    exact h.currFresh p (hc ▸ hp)

theorem inv_rebuild {w : Nat} {s s' : LoopState} (hlen : s.tbl.states.length = w)
    (ht : s'.tbl = rebuild_lists w s.tbl) (hc : s'.curr = none) : Inv w s' := by
  obtain ⟨hnd, hbd, _⟩ := rebuild_partition w s.tbl
  obtain ⟨hst, _, _, _, c1, c2, c3⟩ := rebuild_lists_items w s.tbl
  refine ⟨⟨?_, ?_, ?_, ?_, ?_, ?_⟩, ?_⟩
  · rw [ht]; exact hnd
  · rw [ht]; exact hbd
  · rw [ht]; exact c1
  · rw [ht]; exact c2
  · rw [ht]; exact c3
  · rw [ht, hst]; exact hlen
  · intro p hp
    rw [hc] at hp
    exact Option.noConfusion hp

theorem push_free_perm (F A R : List Nat) (p : Nat) :
    List.Perm (((F ++ [p]) ++ A) ++ R) (p :: ((F ++ A) ++ R)) := by
  have h := ((List.perm_append_singleton p F).append_right A).append_right R
  simp only [List.append_assoc] at h ⊢; exact h

theorem push_ack_perm (F A R : List Nat) (p : Nat) :
    List.Perm ((F ++ (A ++ [p])) ++ R) (p :: ((F ++ A) ++ R)) := by
  have h1 : List.Perm (F ++ (A ++ [p])) (p :: (F ++ A)) :=
    (List.Perm.append_left F (List.perm_append_singleton p A)).trans List.perm_middle
  have h := h1.append_right R
  simp only [List.append_assoc, List.cons_append] at h ⊢; exact h

theorem push_retr_perm (F A R : List Nat) (p : Nat) :
    List.Perm ((F ++ A) ++ (R ++ [p])) (p :: ((F ++ A) ++ R)) :=
  (List.Perm.append_left (F ++ A) (List.perm_append_singleton p R)).trans
    List.perm_middle

theorem ack_head_perm (F rest R : List Nat) (a : Nat) :
    List.Perm ((F ++ a :: rest) ++ R) (a :: ((F ++ rest) ++ R)) := by
  have h := (@List.perm_middle _ a F rest).append_right R
  simp only [List.append_assoc, List.cons_append] at h ⊢; exact h

/-- Transfer of the invariant along a permutation of the listed slots. -/
theorem inv_perm_listItems {w : Nat} {s s' : LoopState} (h : Inv w s)
    (hperm : List.Perm (listItems s'.tbl) (listItems s.tbl))
    (hcf : s'.tbl.free_list.count = (s'.tbl.free_list.items.length : Int))
    (hca : s'.tbl.ack_list.count = (s'.tbl.ack_list.items.length : Int))
    (hcr : s'.tbl.retr_list.count = (s'.tbl.retr_list.items.length : Int))
    (hlen : s'.tbl.states.length = w)
    (hcur : ∀ p, s'.curr = some p → s.curr = some p) : Inv w s' := by
  refine ⟨⟨hperm.nodup_iff.mpr h.nodup, ?_, hcf, hca, hcr, hlen⟩, ?_⟩
  · intro i hi
    exact h.bounded i (hperm.mem_iff.mp hi)
  · intro p hp
    obtain ⟨h1, h2⟩ := h.currFresh p (hcur p hp)
    exact ⟨fun hmem => h1 (hperm.mem_iff.mp hmem), h2⟩

/-- Transfer of the invariant when the in-hand slot is pushed onto a
list. -/
theorem inv_cons_listItems {w : Nat} {s s' : LoopState} {p : Nat} (h : Inv w s)
    (hcur : s.curr = some p)
    (hperm : List.Perm (listItems s'.tbl) (p :: listItems s.tbl))
    (hcf : s'.tbl.free_list.count = (s'.tbl.free_list.items.length : Int))
    (hca : s'.tbl.ack_list.count = (s'.tbl.ack_list.items.length : Int))
    (hcr : s'.tbl.retr_list.count = (s'.tbl.retr_list.items.length : Int))
    (hlen : s'.tbl.states.length = w)
    (hcur' : s'.curr = none) : Inv w s' := by
  obtain ⟨hpf, hpw⟩ := h.currFresh p hcur
  refine ⟨⟨hperm.nodup_iff.mpr (List.nodup_cons.mpr ⟨hpf, h.nodup⟩), ?_, hcf, hca,
    hcr, hlen⟩, ?_⟩
  · intro i hi
    rcases List.mem_cons.mp (hperm.mem_iff.mp hi) with hi | hi
    · subst hi; exact hpw
    · exact h.bounded i hi
  · intro q hq
    rw [hcur'] at hq
    exact Option.noConfusion hq

/-- Transfer of the invariant when a list head is popped into the hand. -/
theorem inv_pop_listItems {w : Nat} {s s' : LoopState} {p : Nat} (h : Inv0 w s)
    (hperm : List.Perm (p :: listItems s'.tbl) (listItems s.tbl))
    (hcf : s'.tbl.free_list.count = (s'.tbl.free_list.items.length : Int))
    (hca : s'.tbl.ack_list.count = (s'.tbl.ack_list.items.length : Int))
    (hcr : s'.tbl.retr_list.count = (s'.tbl.retr_list.items.length : Int))
    (hlen : s'.tbl.states.length = w)
    (hcur' : s'.curr = some p) : Inv w s' := by
  have hnodup : (p :: listItems s'.tbl).Nodup := hperm.nodup_iff.mpr h.nodup
  obtain ⟨hpnot, hnd⟩ := List.nodup_cons.mp hnodup
  refine ⟨⟨hnd, ?_, hcf, hca, hcr, hlen⟩, ?_⟩
  · intro i hi
    exact h.bounded i (hperm.mem_iff.mp (List.mem_cons_of_mem p hi))
  · intro q hq
    rw [hcur'] at hq
    cases hq
    exact ⟨hpnot, h.bounded p (hperm.mem_iff.mp (List.mem_cons_self p _))⟩

/-- Transfer of the invariant along a permutation when the hand is
emptied. -/
theorem inv_perm_none {w : Nat} {s s' : LoopState} (h : Inv0 w s)
    (hperm : List.Perm (listItems s'.tbl) (listItems s.tbl))
    (hcf : s'.tbl.free_list.count = (s'.tbl.free_list.items.length : Int))
    (hca : s'.tbl.ack_list.count = (s'.tbl.ack_list.items.length : Int))
    (hcr : s'.tbl.retr_list.count = (s'.tbl.retr_list.items.length : Int))
    (hlen : s'.tbl.states.length = w)
    (hcur' : s'.curr = none) : Inv w s' := by
  refine ⟨⟨hperm.nodup_iff.mpr h.nodup, ?_, hcf, hca, hcr, hlen⟩, ?_⟩
  · intro i hi
    exact h.bounded i (hperm.mem_iff.mp hi)
  · intro p hp
    rw [hcur'] at hp
    exact Option.noConfusion hp

/-- The requeue loop keeps the untouched retry items, appends exactly the
non-connection ack items in order, adds their number to the retry count,
and leaves the loop variable at the number of iterations. -/
theorem drainAckAux_spec (conn : Option Nat) (items : List Nat) :
    ∀ (retr : ProdList) (i : Nat),
      (drainAckAux conn items retr i).1.items =
        retr.items ++ items.filter (fun c => !decide (conn = some c)) ∧
      (drainAckAux conn items retr i).1.count =
        retr.count + ((items.filter (fun c => !decide (conn = some c))).length : Int) ∧
      (drainAckAux conn items retr i).2 = i + items.length := by
  induction items with
  | nil => intro retr i; simp [drainAckAux]
  | cons c t ih =>
    intro retr i
    obtain ⟨e1, e2, e3⟩ := ih (push_prod retr c) (i + 1)
    obtain ⟨f1, f2, f3⟩ := ih retr (i + 1)
    by_cases hc : conn = some c
    · simp only [drainAckAux, if_pos hc, List.filter_cons]
      have hb : (!decide (conn = some c)) = false := by simp [hc]
      have hnb : ¬(false = true) := by simp
      rw [hb, if_neg hnb]
      refine ⟨f1, f2, ?_⟩
      rw [f3]
      simp only [List.length_cons]
      omega
    · simp only [drainAckAux, if_neg hc, List.filter_cons]
      have hb : (!decide (conn = some c)) = true := by simp [hc]
      rw [hb]
      simp only [if_true]
      refine ⟨?_, ?_, ?_⟩
      · rw [e1]
        simp [push_prod, List.append_assoc]
      · rw [e2]
        simp only [push_prod, List.length_cons]
        push_cast
        ring
      · rw [e3]
        simp only [List.length_cons]
        omega

/-- A duplicate-free list of naturals below w has at most w elements. -/
theorem nodup_bounded_length_le {w : Nat} {l : List Nat} (hnd : l.Nodup)
    (hbd : ∀ i ∈ l, i < w) : l.length ≤ w := by
  have h1 : l.toFinset ⊆ Finset.range w := by
    intro x hx
    rw [List.mem_toFinset] at hx
    exact Finset.mem_range.mpr (hbd x hx)
  have h2 := Finset.card_le_card h1
  rw [List.toFinset_card_of_nodup hnd, Finset.card_range] at h2
  exact h2

/-- Transfer of the invariant when only slot states change. -/
theorem inv_of_lists {w : Nat} {s s' : LoopState} (h : Inv w s)
    (hf : s'.tbl.free_list = s.tbl.free_list)
    (ha : s'.tbl.ack_list = s.tbl.ack_list)
    (hr : s'.tbl.retr_list = s.tbl.retr_list)
    (hlen : s'.tbl.states.length = w)
    (hc : s'.curr = s.curr) : Inv w s' := by
  have hli : listItems s'.tbl = listItems s.tbl := by
    rw [listItems, listItems, hf, ha, hr]
  refine ⟨⟨?_, ?_, ?_, ?_, ?_, hlen⟩, ?_⟩
  · rw [hli]; exact h.nodup
  · rw [hli]; exact h.bounded
  · rw [hf]; exact h.cf
  · rw [ha]; exact h.ca
  · rw [hr]; exact h.cr
  · intro p hp
    rw [hli]
    exact h.currFresh p (hc ▸ hp)

/-- Pushing the fresh in-hand slot onto the retry list preserves the
per-table part of the invariant. -/
theorem inv0_push_curr_retr {w : Nat} {s s' : LoopState} {p : Nat} (h : Inv w s)
    (hc : s.curr = some p)
    (ht : s'.tbl = { s.tbl with retr_list := push_prod s.tbl.retr_list p }) :
    Inv0 w s' := by
  obtain ⟨hpf, hpw⟩ := h.currFresh p hc
  have hperm : List.Perm (listItems s'.tbl) (p :: listItems s.tbl) := by
    rw [ht]
    simp only [listItems, push_prod]
    exact push_retr_perm _ _ _ _
  refine ⟨hperm.nodup_iff.mpr (List.nodup_cons.mpr ⟨hpf, h.nodup⟩), ?_, ?_, ?_, ?_, ?_⟩
  · intro i hi
    rcases List.mem_cons.mp (hperm.mem_iff.mp hi) with hi | hi
    · subst hi; exact hpw
    · exact h.bounded i hi
  · rw [ht]; exact h.cf
  · rw [ht]; exact h.ca
  · rw [ht]
    simp only [push_prod, List.length_append, List.length_cons, List.length_nil]
    rw [h.cr]
    push_cast
    ring
  · rw [ht]; exact h.statesLen

theorem inv_ttl {w : Nat} {s : LoopState} (h : Inv w s) : Inv w (ttlF s) := by
  match hc : s.curr with
  | none => simp only [ttlF, hc]; exact h
  | some p =>
    simp only [ttlF, hc]
    refine inv_cons_listItems h hc ?_ ?_ ?_ ?_ ?_ rfl
    · simp only [listItems, push_prod]
      exact push_free_perm _ _ _ _
    · simp only [push_prod, List.length_append, List.length_cons, List.length_nil]
      rw [h.cf]
      push_cast
      ring
    · exact h.ca
    · exact h.cr
    · simp only [List.length_set]
      exact h.statesLen

theorem inv_sendOk {w : Nat} {s : LoopState} (h : Inv w s) : Inv w (sendOkF s) := by
  match hc : s.curr with
  | none => simp only [sendOkF, hc]; exact h
  | some p =>
    simp only [sendOkF, hc]
    refine inv_cons_listItems h hc ?_ ?_ ?_ ?_ ?_ rfl
    · simp only [listItems, push_prod]
      exact push_ack_perm _ _ _ _
    · exact h.cf
    · simp only [push_prod, List.length_append, List.length_cons, List.length_nil]
      rw [h.ca]
      push_cast
      ring
    · exact h.cr
    · simp only [List.length_set]
      exact h.statesLen

theorem inv_sendFail {w : Nat} {s : LoopState} (h : Inv w s) :
    Inv w (sendFailF s) := by
  match hc : s.curr with
  | none => simp only [sendFailF, hc]; exact h
  | some p =>
    simp only [sendFailF, hc]
    refine inv_cons_listItems h hc ?_ ?_ ?_ ?_ ?_ rfl
    · simp only [listItems, push_prod]
      exact push_free_perm _ _ _ _
    · simp only [push_prod, List.length_append, List.length_cons, List.length_nil]
      rw [h.cf]
      push_cast
      ring
    · exact h.ca
    · exact h.cr
    · simp only [List.length_set]
      exact h.statesLen

theorem inv_sendRetry {w : Nat} {s : LoopState} (h : Inv w s) :
    Inv w (sendRetryF s) := by
  match hc : s.curr with
  | none => simp only [sendRetryF, hc]; exact h
  | some p =>
    simp only [sendRetryF, hc]
    refine inv_of_lists h rfl rfl rfl ?_ hc.symm
    simp only [List.length_set]
    exact h.statesLen

theorem inv_acquireRetry {w : Nat} {s : LoopState} (h : Inv w s) :
    Inv w (acquireRetryF w s) := by
  match hr : s.tbl.retr_list.items with
  | [] =>
    simp only [acquireRetryF, hr]
    exact inv_rebuild h.statesLen rfl rfl
  | p :: t =>
    simp only [acquireRetryF, hr]
    refine inv_pop_listItems h.toInv0 ?_ h.cf h.ca ?_ h.statesLen rfl
    · simp only [listItems, hr]
      exact (@List.perm_middle _ p
        (s.tbl.free_list.items ++ s.tbl.ack_list.items) t).symm
    · rw [h.cr, hr]
      simp only [List.length_cons]
      push_cast
      ring

theorem inv_acquireNew {w : Nat} {s : LoopState} (q : Int) (h : Inv w s) :
    Inv w (acquireNewF w q s) := by
  match hf : s.tbl.free_list.items with
  | [] =>
    simp only [acquireNewF, hf]
    exact inv_rebuild h.statesLen rfl rfl
  | p :: t =>
    simp only [acquireNewF, hf]
    by_cases hq1 : q < 0
    · rw [if_pos hq1]
      refine inv_pop_listItems h.toInv0 ?_ ?_ h.ca h.cr h.statesLen rfl
      · simp only [listItems, hf]
        exact List.Perm.refl _
      · rw [h.cf, hf]
        simp only [List.length_cons]
        push_cast
        ring
    · by_cases hq2 : 0 < q
      · rw [if_neg hq1, if_pos hq2]
        refine inv_pop_listItems h.toInv0 ?_ ?_ h.ca h.cr ?_ rfl
        · simp only [listItems, hf]
          exact List.Perm.refl _
        · rw [h.cf, hf]
          simp only [List.length_cons]
          push_cast
          ring
        · simp only [List.length_set]
          exact h.statesLen
      · rw [if_neg hq1, if_neg hq2]
        refine inv_perm_none h.toInv0 ?_ ?_ h.ca h.cr h.statesLen rfl
        · simp only [listItems, push_prod, hf]
          exact ((List.perm_append_singleton p t).append_right _).append_right _
        · rw [h.cf, hf]
          simp only [push_prod, List.length_append, List.length_cons, List.length_nil]
          push_cast
          ring

theorem inv_createConnMsg {w : Nat} {s : LoopState} (fileOk : Bool)
    (h : Inv0 w s) : Inv w (createConnMsg fileOk w s) := by
  match hf : s.tbl.free_list.items with
  | [] =>
    simp only [createConnMsg, hf]
    exact inv_rebuild h.statesLen rfl rfl
  | c :: t =>
    simp only [createConnMsg, hf]
    by_cases hOk : fileOk = true
    · rw [if_pos hOk]
      refine inv_pop_listItems h ?_ ?_ h.ca h.cr ?_ rfl
      · simp only [listItems, hf]
        exact List.Perm.refl _
      · rw [h.cf, hf]
        simp only [List.length_cons]
        push_cast
        ring
      · simp only [List.length_set]
        exact h.statesLen
    · rw [if_neg hOk]
      refine inv_perm_none h ?_ ?_ h.ca h.cr ?_ rfl
      · simp only [listItems, push_prod, hf]
        exact ((List.perm_append_singleton c t).append_right _).append_right _
      · rw [h.cf, hf]
        simp only [push_prod, List.length_append, List.length_cons, List.length_nil]
        push_cast
        ring
      · simp only [List.length_set]
        exact h.statesLen

theorem inv_discWmo {w : Nat} {s : LoopState} (fileOk : Bool) (h : Inv w s) :
    Inv w (discWmoF fileOk w s) := by
  match hc : s.curr with
  | none =>
    simp only [discWmoF, hc]
    exact inv_createConnMsg fileOk ⟨h.nodup, h.bounded, h.cf, h.ca, h.cr, h.statesLen⟩
  | some p =>
    simp only [discWmoF, hc]
    by_cases hcp : s.conn = some p
    · rw [if_pos hcp]
      exact inv_createConnMsg fileOk ⟨h.nodup, h.bounded, h.cf, h.ca, h.cr, h.statesLen⟩
    · rw [if_neg hcp]
      exact inv_createConnMsg fileOk (inv0_push_curr_retr h hc rfl)

theorem inv_connectOk {w : Nat} {s : LoopState} (h : Inv w s) :
    Inv w (connectOkF s) := by
  obtain ⟨e1, e2, e3⟩ :=
    drainAckAux_spec s.conn s.tbl.ack_list.items s.tbl.retr_list 0
  have hperm : List.Perm (listItems s.tbl)
      (s.tbl.free_list.items ++ (s.tbl.retr_list.items ++ s.tbl.ack_list.items)) := by
    rw [listItems, List.append_assoc]
    exact List.Perm.append_left _ List.perm_append_comm
  have hli : listItems (connectOkF s).tbl =
      s.tbl.free_list.items ++
        (s.tbl.retr_list.items ++
          s.tbl.ack_list.items.filter (fun c => !decide (s.conn = some c))) := by
    simp only [connectOkF, listItems, e1, List.append_nil]
  have hsub : List.Sublist (listItems (connectOkF s).tbl)
      (s.tbl.free_list.items ++ (s.tbl.retr_list.items ++ s.tbl.ack_list.items)) := by
    rw [hli]
    exact List.Sublist.append_left
      (List.Sublist.append_left (List.filter_sublist _) _) _
  refine ⟨⟨?_, ?_, ?_, ?_, ?_, ?_⟩, ?_⟩
  · exact List.Nodup.sublist hsub (hperm.nodup_iff.mp h.nodup)
  · intro i hi
    exact h.bounded i (hperm.mem_iff.mpr (hsub.subset hi))
  · exact h.cf
  · simp only [connectOkF]
    rw [h.ca]
    simp
  · simp only [connectOkF]
    rw [e2, e1, h.cr]
    simp only [List.length_append]
    push_cast
    ring
  · exact h.statesLen
  · intro p hp
    obtain ⟨h1, h2⟩ := h.currFresh p hp
    exact ⟨fun hmem => h1 (hperm.mem_iff.mpr (hsub.subset hmem)), h2⟩

theorem inv_ack {w : Nat} {s : LoopState} (o : AckOutcome) (h : Inv w s) :
    Inv w (ackStepF o s) := by
  match ha : s.tbl.ack_list.items with
  | [] => simp only [ackStepF, ha]; exact h
  | a :: rest =>
    cases o with
    | recvErr =>
      simp only [ackStepF, ha]
      refine inv_perm_listItems h ?_ h.cf ?_ h.cr h.statesLen ?_
      · simp only [listItems, push_prod, ha]
        exact (List.Perm.append_left _
          (List.perm_append_singleton a rest)).append_right _
      · rw [h.ca, ha]
        simp only [push_prod, List.length_append, List.length_cons, List.length_nil]
        push_cast
        ring
      · intro p hp
        exact hp
    | badCode =>
      simp only [ackStepF, ha]
      refine inv_perm_listItems h ?_ h.cf ?_ h.cr h.statesLen ?_
      · simp only [listItems, push_prod, ha]
        exact (List.Perm.append_left _
          (List.perm_append_singleton a rest)).append_right _
      · rw [h.ca, ha]
        simp only [push_prod, List.length_append, List.length_cons, List.length_nil]
        push_cast
        ring
      · intro p hp
        exact hp
    | okK =>
      simp only [ackStepF, ha]
      refine inv_perm_listItems h ?_ ?_ ?_ h.cr ?_ ?_
      · simp only [listItems, push_prod, ha]
        exact (push_free_perm _ _ _ _).trans (ack_head_perm _ _ _ _).symm
      · simp only [push_prod, List.length_append, List.length_cons, List.length_nil]
        rw [h.cf]
        push_cast
        ring
      · rw [h.ca, ha]
        simp only [List.length_cons]
        push_cast
        ring
      · simp only [List.length_set]
        exact h.statesLen
      · intro p hp
        exact hp
    | okF =>
      simp only [ackStepF, ha]
      refine inv_perm_listItems h ?_ ?_ ?_ h.cr ?_ ?_
      · simp only [listItems, push_prod, ha]
        exact (push_free_perm _ _ _ _).trans (ack_head_perm _ _ _ _).symm
      · simp only [push_prod, List.length_append, List.length_cons, List.length_nil]
        rw [h.cf]
        push_cast
        ring
      · rw [h.ca, ha]
        simp only [List.length_cons]
        push_cast
        ring
      · simp only [List.length_set]
        exact h.statesLen
      · intro p hp
        exact hp
    | okR =>
      simp only [ackStepF, ha]
      by_cases hca : s.conn = some a
      · rw [if_pos hca]
        refine inv_perm_listItems h ?_ ?_ ?_ h.cr ?_ ?_
        · simp only [listItems, push_prod, ha]
          exact (push_free_perm _ _ _ _).trans (ack_head_perm _ _ _ _).symm
        · simp only [push_prod, List.length_append, List.length_cons, List.length_nil]
          rw [h.cf]
          push_cast
          ring
        · rw [h.ca, ha]
          simp only [List.length_cons]
          push_cast
          ring
        · simp only [List.length_set]
          exact h.statesLen
        · intro p hp
          exact hp
      · rw [if_neg hca]
        refine inv_perm_listItems h ?_ h.cf ?_ ?_ ?_ ?_
        · simp only [listItems, push_prod, ha]
          exact (push_retr_perm _ _ _ _).trans (ack_head_perm _ _ _ _).symm
        · rw [h.ca, ha]
          simp only [List.length_cons]
          push_cast
          ring
        · simp only [push_prod, List.length_append, List.length_cons, List.length_nil]
          rw [h.cr]
          push_cast
          ring
        · simp only [List.length_set]
          exact h.statesLen
        · intro p hp
          exact hp

/-- Every loop event preserves the list-discipline invariant. -/
theorem step_preserves_inv {w : Nat} {connWmo : Bool} {s s' : LoopState}
    {e : Ev} (h : Inv w s) (hst : Step w connWmo s e s') : Inv w s' := by
  cases hst with
  | discNoWmo h1 h2 h3 => exact inv_of_eq h rfl rfl
  | discWmo fileOk h1 h2 h3 => exact inv_discWmo fileOk h
  | connCreatePre fileOk hcw => exact inv_createConnMsg fileOk h.toInv0
  | connectOk hc => exact inv_connectOk h
  | signalDisc => exact inv_of_eq h rfl rfl
  | acquireRetry h0 h1 h2 => exact inv_acquireRetry h
  | acquireNew q h0 h1 h2 => exact inv_acquireNew q h
  | acquireSkipFull h0 h1 => exact h
  | acquireOverflow h0 h1 => exact inv_rebuild h.statesLen rfl h0
  | ttlDiscard hc => exact inv_ttl h
  | sendOk h1 h2 => exact inv_sendOk h
  | sendFail h1 h2 => exact inv_sendFail h
  | sendRetry h1 h2 => exact inv_sendRetry h
  | ack o h1 h2 => exact inv_ack o h
  | ackUnderflow h1 h2 h3 =>
    exfalso
    rw [h.ca, h2] at h3
    simp at h3

/-- Every reachable state of the send loop satisfies the invariant. -/
theorem reachable_inv {w : Nat} {connWmo : Bool} {s : LoopState}
    (h : Reachable w connWmo s) : Inv w s := by
  induction h with
  | init => exact inv_init w
  | step hr hstep ih => exact step_preserves_inv ih hstep

/-- The invariant entails the decidable discipline predicate. -/
theorem inv_discipline {w : Nat} {s : LoopState} (h : Inv w s) :
    Discipline w s := by
  have hlen : (listItems s.tbl).length ≤ w :=
    nodup_bounded_length_le h.nodup h.bounded
  have hsum : (listItems s.tbl).length =
      s.tbl.free_list.items.length + s.tbl.ack_list.items.length +
        s.tbl.retr_list.items.length := by
    simp only [listItems, List.length_append]
  refine ⟨h.nodup, h.bounded, h.cf, h.ca, h.cr, ?_⟩
  rw [h.cf, h.ca, h.cr]
  omega

/-- rebuild_lists satisfies its specification on every table. -/
theorem rebuildSpec_holds (w : Nat) (t : ProdTbl) : RebuildSpec w t := by
  obtain ⟨hst, hf, ha, hr, c1, c2, c3⟩ := rebuild_lists_items w t
  obtain ⟨hnd, hbd, hcount⟩ := rebuild_partition w t
  have hack : (List.range w).filter
        (fun i => !sendsRetry t.states i && sendsAck t.states i) =
      (List.range w).filter (fun i => sendsAck t.states i) := by
    apply List.filter_congr
    intro i hi
    by_cases hr2 : sendsRetry t.states i = true
    · have hx := sendsRetry_sendsAck_exclusive t.states i
      have ha2 : sendsAck t.states i = false := by
        by_contra hc2
        exact hx ⟨hr2, by simpa using hc2⟩
      simp [hr2, ha2]
    · have hr3 : sendsRetry t.states i = false := by
        simpa using hr2
      simp [hr3]
  refine ⟨hr, ?_, hf, c1, c2, c3, ?_, hcount⟩
  · rw [ha, hack]
  · rw [c1, c2, c3, hf, ha, hr]
    have h3 := filter_three_length (fun i => sendsRetry t.states i)
      (fun i => sendsAck t.states i) (List.range w)
    rw [List.length_range] at h3
    omega

/-- C3: Ack-window bound: in every reachable state of the client send
loop the awaiting-ack list holds at most window_size products, and when
ack_list.count equals window_size no step of the loop is an acquisition
(neither from the retry list nor from the input queue). -/
theorem ack_window_bound (w : Nat) (connWmo : Bool) (s : LoopState)
    (h : Reachable w connWmo s) :
    s.tbl.ack_list.count ≤ (w : Int) ∧
    (s.tbl.ack_list.count = (w : Int) →
      ∀ (e : Ev) (s' : LoopState), Step w connWmo s e s' →
        isAcquireEv e = false) := by
  have hinv := reachable_inv h
  have hlen : (listItems s.tbl).length ≤ w :=
    nodup_bounded_length_le hinv.nodup hinv.bounded
  have hsum : (listItems s.tbl).length =
      s.tbl.free_list.items.length + s.tbl.ack_list.items.length +
        s.tbl.retr_list.items.length := by
    simp only [listItems, List.length_append]
  constructor
  · rw [hinv.ca]
    have hA : s.tbl.ack_list.items.length ≤ w := by omega
    exact_mod_cast hA
  · intro hfull e s' hstep
    cases hstep <;> first | rfl | (exfalso; omega)

/-- C3 witness at the freshly initialized state for window_size 2. -/
theorem ack_window_bound_witness :
    (initState 2).tbl.ack_list.count ≤ ((2 : Nat) : Int) ∧
    ((initState 2).tbl.ack_list.count = ((2 : Nat) : Int) →
      ∀ (e : Ev) (s' : LoopState), Step 2 false (initState 2) e s' →
        isAcquireEv e = false) :=
  ack_window_bound 2 false (initState 2) Reachable.init

/-- C4 counterexample to the claim as frozen: after a reconnect with an
empty table followed by one acquisition from the input queue, the slot in
hand (p_prod) is on none of the three lists, so not every slot is on
exactly one list and the counts sum to 1, not window_size = 2. -/
theorem prod_table_partition_cex :
    ¬(∀ s : LoopState, Reachable 2 false s → ClaimC4Inv 2 s) := by
  intro hall
  have h1 : Reachable 2 false (connectOkF (initState 2)) :=
    Reachable.step Reachable.init (Step.connectOk (initState 2) rfl)
  have h2 : Reachable 2 false exState :=
    Reachable.step h1 (Step.acquireNew (connectOkF (initState 2)) 1
      (by decide) (by decide) (by decide))
  exact absurd (hall exState h2).2.2.2.2 (by decide)

/-- C4 (amended): in every reachable state the three lists are
duplicate-free, disjoint, made of pool indices, with count fields equal
to the list lengths and summing to at most window_size (a slot may be
held in p_prod and be on no list); and rebuild_lists re-establishes the
full partition from per-slot state alone, sending QUEUED/RETRY to the
retry list, SENT to the awaiting-ack list, and everything else to the
free list. -/
theorem prod_table_discipline_amended (w : Nat) (connWmo : Bool) :
    (∀ s : LoopState, Reachable w connWmo s → Discipline w s) ∧
    (∀ t : ProdTbl, RebuildSpec w t) :=
  ⟨fun _ hs => inv_discipline (reachable_inv hs),
   fun t => rebuildSpec_holds w t⟩

/-- C4 witness at the freshly initialized state for window_size 2. -/
theorem prod_table_discipline_amended_witness :
    Discipline 2 (initState 2) ∧ RebuildSpec 2 (initState 2).tbl :=
  ⟨(prod_table_discipline_amended 2 false).1 (initState 2) Reachable.init,
   (prod_table_discipline_amended 2 false).2 (initState 2).tbl⟩

/-- C5: the stale-index write `prod_tbl.prod[i].state = STATE_FREE` in
the ack loop (client_send.c:374, 384, 394) is a real code bug, as the
spec's open question suspects: in the reachable state c5state slot 0 sits
on the retry list in state RETRY and slot 1 awaits its ack with the loop
index i left at 0 by the reconnect drain; processing the K
acknowledgement for slot 1 then sets slot 0's state to FREE, so the ack
step changes the state field of a slot other than the acknowledged one,
refuting the claimed frame property of the code. -/
theorem ack_stale_index_bug :
    Reachable 2 false c5state ∧
    c5state.tbl.ack_list.items = [1] ∧
    c5state.tbl.retr_list.items = [0] ∧
    c5state.staleI = 0 ∧
    c5state.tbl.states[0]? = some STATE_RETRY ∧
    (ackStepF AckOutcome.okK c5state).tbl.states[1]? = some STATE_ACKED ∧
    (ackStepF AckOutcome.okK c5state).tbl.states[0]? = some STATE_FREE := by
  refine ⟨?_, by decide, by decide, by decide, by decide, by decide, by decide⟩
  have h1 : Reachable 2 false (connectOkF (initState 2)) :=
    Reachable.step Reachable.init (Step.connectOk (initState 2) rfl)
  have h2 : Reachable 2 false exState :=
    Reachable.step h1 (Step.acquireNew (connectOkF (initState 2)) 1
      (by decide) (by decide) (by decide))
  have h3 : Reachable 2 false (sendOkF exState) :=
    Reachable.step h2 (Step.sendOk exState (by decide) (by decide))
  have h4 : Reachable 2 false (acquireNewF 2 1 (sendOkF exState)) :=
    Reachable.step h3 (Step.acquireNew (sendOkF exState) 1
      (by decide) (by decide) (by decide))
  have h5 : Reachable 2 false (sendOkF (acquireNewF 2 1 (sendOkF exState))) :=
    Reachable.step h4 (Step.sendOk (acquireNewF 2 1 (sendOkF exState))
      (by decide) (by decide))
  exact Reachable.step h5
    (Step.ack (sendOkF (acquireNewF 2 1 (sendOkF exState))) AckOutcome.okR
      (by decide) (by decide))

end CS
